/-
  Verification of the RustyChip CHIP-8 emulator core (src/opcodes.rs,
  src/interpreter.rs, src/quirks.rs).

  The Rust code is shallowly embedded: machine bytes are `Nat` values kept
  below 256 (overflow is made explicit with `% 256` where the Rust u8/u16
  arithmetic wraps), the fixed-size Rust arrays (`ram`, `registers`, `stack`,
  `drawing_buffer`) are total functions out of `Nat` (the executions studied
  here only ever index them in range; the Rust code would terminate the
  process on an out-of-range index, which the specification classifies as
  undefined behaviour of the loaded program and which the claims exclude by
  hypothesis), the keyboard `HashSet<u8>` is its membership function, and the
  SDL canvas and audio device (external collaborators carrying no emulation
  state) are dropped.  Decoding of an unrecognized opcode terminates the
  process in the Rust code; this is modelled by the explicit
  `DecodeOutcome.panicked` outcome, and the per-cycle step is `Option`-valued
  accordingly.
-/
import Mathlib

namespace RustyChip

/-! ## Quirk configuration (src/quirks.rs) -/

/-- Reset register F on AND/OR/XOR quirk. -/
inductive ResetVfQuirk | Reset | NoReset
deriving DecidableEq

/-- Increment register I during block register store/load quirk. -/
inductive MemoryIncrementQuirk | Increment | NoIncrement
deriving DecidableEq

/-- Wait for the display refresh before drawing quirk. -/
inductive DisplayWaitQuirk | Wait | NoWait
deriving DecidableEq

/-- Clip sprites at the screen edge versus wrapping them around quirk. -/
inductive ClippingQuirk | Clip | Wrap
deriving DecidableEq

/-- Source register of the shift opcodes quirk. -/
inductive ShiftingQuirk | Vy | Vx
deriving DecidableEq

/-- Register used by the jump-with-offset opcode quirk. -/
inductive JumpingQuirk | V0 | Vx
deriving DecidableEq

/-- All six quirk settings together (struct `QuirkConfig`). -/
structure QuirkConfig where
  reset_vf : ResetVfQuirk
  memory : MemoryIncrementQuirk
  display_wait : DisplayWaitQuirk
  clipping : ClippingQuirk
  shifting : ShiftingQuirk
  jumping : JumpingQuirk
deriving DecidableEq

/-- `QuirkConfig::new`: the default quirk configuration. -/
def QuirkConfig.new : QuirkConfig :=
  { reset_vf := ResetVfQuirk.Reset
    memory := MemoryIncrementQuirk.Increment
    display_wait := DisplayWaitQuirk.Wait
    clipping := ClippingQuirk.Clip
    shifting := ShiftingQuirk.Vy
    jumping := JumpingQuirk.V0 }

/-! ## Opcodes (src/opcodes.rs)

Register indices (Rust `usize`, always a nibble), immediate bytes (`u8`) and
addresses (`u16`) are all carried as `Nat`. -/

/-- The enum `Opcode`: one constructor per recognized instruction. -/
inductive Opcode
  | SystemAddr (addr : Nat)
  | ClearScreen
  | Return
  | JumpAddr (addr : Nat)
  | CallAddr (addr : Nat)
  | SkipRegisterEqualsValue (register : Nat) (value : Nat)
  | SkipRegisterNotEqualsValue (register : Nat) (value : Nat)
  | SkipRegistersEqual (first_register second_register : Nat)
  | LoadValue (register : Nat) (value : Nat)
  | AddValue (register : Nat) (value : Nat)
  | LoadRegisterValue (first_register second_register : Nat)
  | Or (first_register second_register : Nat)
  | And (first_register second_register : Nat)
  | Xor (first_register second_register : Nat)
  | AddRegisters (first_register second_register : Nat)
  | SubtractFromFirstRegister (first_register second_register : Nat)
  | BitShiftRight (first_register second_register : Nat)
  | SubtractFromSecondRegister (first_register second_register : Nat)
  | BitShiftLeft (first_register second_register : Nat)
  | SkipRegistersNotEqual (first_register second_register : Nat)
  | LoadRegisterI (addr : Nat)
  | JumpAddrV0 (addr : Nat)
  | Random (register : Nat) (value : Nat)
  | Draw (first_register second_register : Nat) (length : Nat)
  | SkipKeyPressed (register : Nat)
  | SkipKeyNotPressed (register : Nat)
  | LoadDelayTimer (register : Nat)
  | LoadKeyPress (register : Nat)
  | SetDelayTimer (register : Nat)
  | SetSoundTimer (register : Nat)
  | AddRegisterI (register : Nat)
  | SetIHexSpriteLocation (register : Nat)
  | BinaryCodedDecimal (register : Nat)
  | StoreRegisters (register : Nat)
  | LoadRegisters (register : Nat)
deriving DecidableEq

/-- Outcome of `OpcodeBytes::get_opcode`: either an `Opcode` value is
returned, or the Rust code terminates the process (its `Unrecognized opcode`
failure path, which never returns to the caller). -/
inductive DecodeOutcome
  | instruction (opcode : Opcode)
  | panicked
deriving DecidableEq

/-- Whether the decode outcome is the process-terminating failure path. -/
def DecodeOutcome.isPanicked : DecodeOutcome → Bool
  | .instruction _ => false
  | .panicked => true

/-- `OpcodeBytes::get_upper_nibble`: the first 4 bits of a byte
(`(byte & 0xF0) >> 4`). -/
def get_upper_nibble (byte : Nat) : Nat := byte / 16 % 16

/-- `OpcodeBytes::get_lower_nibble`: the last 4 bits of a byte
(`byte & 0xF`). -/
def get_lower_nibble (byte : Nat) : Nat := byte % 16

/-- `OpcodeBytes::get_addr`: the 12-bit address of an opcode, the low nibble
of the first byte shifted left 8 plus the whole second byte. -/
def get_addr (first_byte second_byte : Nat) : Nat :=
  get_lower_nibble first_byte * 256 + second_byte

/-- `OpcodeBytes::get_opcode`, with the match arms in source order: the two
exact whole-word matches first, then the dispatch on the first nibble, with a
second-level dispatch on the last nibble (families 5, 8, 9) or on the whole
second byte (families E, F).  The final catch-all arm of the Rust match
terminates the process. -/
def get_opcode (first_byte second_byte : Nat) : DecodeOutcome :=
  let first_nibble := get_upper_nibble first_byte
  let last_nibble := get_lower_nibble second_byte
  if first_byte = 0x00 ∧ second_byte = 0xE0 then .instruction .ClearScreen
  else if first_byte = 0x00 ∧ second_byte = 0xEE then .instruction .Return
  else if first_nibble = 0x0 then .instruction (.SystemAddr (get_addr first_byte second_byte))
  else if first_nibble = 0x1 then .instruction (.JumpAddr (get_addr first_byte second_byte))
  else if first_nibble = 0x2 then .instruction (.CallAddr (get_addr first_byte second_byte))
  else if first_nibble = 0x3 then
    .instruction (.SkipRegisterEqualsValue (get_lower_nibble first_byte) second_byte)
  else if first_nibble = 0x4 then
    .instruction (.SkipRegisterNotEqualsValue (get_lower_nibble first_byte) second_byte)
  else if first_nibble = 0x5 ∧ last_nibble = 0x0 then
    .instruction (.SkipRegistersEqual (get_lower_nibble first_byte) (get_upper_nibble second_byte))
  else if first_nibble = 0x6 then
    .instruction (.LoadValue (get_lower_nibble first_byte) second_byte)
  else if first_nibble = 0x7 then
    .instruction (.AddValue (get_lower_nibble first_byte) second_byte)
  else if first_nibble = 0x8 ∧ last_nibble = 0x0 then
    .instruction (.LoadRegisterValue (get_lower_nibble first_byte) (get_upper_nibble second_byte))
  else if first_nibble = 0x8 ∧ last_nibble = 0x1 then
    .instruction (.Or (get_lower_nibble first_byte) (get_upper_nibble second_byte))
  else if first_nibble = 0x8 ∧ last_nibble = 0x2 then
    .instruction (.And (get_lower_nibble first_byte) (get_upper_nibble second_byte))
  else if first_nibble = 0x8 ∧ last_nibble = 0x3 then
    .instruction (.Xor (get_lower_nibble first_byte) (get_upper_nibble second_byte))
  else if first_nibble = 0x8 ∧ last_nibble = 0x4 then
    .instruction (.AddRegisters (get_lower_nibble first_byte) (get_upper_nibble second_byte))
  else if first_nibble = 0x8 ∧ last_nibble = 0x5 then
    .instruction (.SubtractFromFirstRegister (get_lower_nibble first_byte) (get_upper_nibble second_byte))
  else if first_nibble = 0x8 ∧ last_nibble = 0x6 then
    .instruction (.BitShiftRight (get_lower_nibble first_byte) (get_upper_nibble second_byte))
  else if first_nibble = 0x8 ∧ last_nibble = 0x7 then
    .instruction (.SubtractFromSecondRegister (get_lower_nibble first_byte) (get_upper_nibble second_byte))
  else if first_nibble = 0x8 ∧ last_nibble = 0xE then
    .instruction (.BitShiftLeft (get_lower_nibble first_byte) (get_upper_nibble second_byte))
  else if first_nibble = 0x9 ∧ last_nibble = 0x0 then
    .instruction (.SkipRegistersNotEqual (get_lower_nibble first_byte) (get_upper_nibble second_byte))
  else if first_nibble = 0xA then .instruction (.LoadRegisterI (get_addr first_byte second_byte))
  else if first_nibble = 0xB then .instruction (.JumpAddrV0 (get_addr first_byte second_byte))
  else if first_nibble = 0xC then
    .instruction (.Random (get_lower_nibble first_byte) second_byte)
  else if first_nibble = 0xD then
    .instruction (.Draw (get_lower_nibble first_byte) (get_upper_nibble second_byte)
      (get_lower_nibble second_byte))
  else if first_nibble = 0xE ∧ second_byte = 0x9E then
    .instruction (.SkipKeyPressed (get_lower_nibble first_byte))
  else if first_nibble = 0xE ∧ second_byte = 0xA1 then
    .instruction (.SkipKeyNotPressed (get_lower_nibble first_byte))
  else if first_nibble = 0xF ∧ second_byte = 0x07 then
    .instruction (.LoadDelayTimer (get_lower_nibble first_byte))
  else if first_nibble = 0xF ∧ second_byte = 0x0A then
    .instruction (.LoadKeyPress (get_lower_nibble first_byte))
  else if first_nibble = 0xF ∧ second_byte = 0x15 then
    .instruction (.SetDelayTimer (get_lower_nibble first_byte))
  else if first_nibble = 0xF ∧ second_byte = 0x18 then
    .instruction (.SetSoundTimer (get_lower_nibble first_byte))
  else if first_nibble = 0xF ∧ second_byte = 0x1E then
    .instruction (.AddRegisterI (get_lower_nibble first_byte))
  else if first_nibble = 0xF ∧ second_byte = 0x29 then
    .instruction (.SetIHexSpriteLocation (get_lower_nibble first_byte))
  else if first_nibble = 0xF ∧ second_byte = 0x33 then
    .instruction (.BinaryCodedDecimal (get_lower_nibble first_byte))
  else if first_nibble = 0xF ∧ second_byte = 0x55 then
    .instruction (.StoreRegisters (get_lower_nibble first_byte))
  else if first_nibble = 0xF ∧ second_byte = 0x65 then
    .instruction (.LoadRegisters (get_lower_nibble first_byte))
  else .panicked

/-- The decode table of the specification (sections 4.1 and 8), written as a
predicate on the two instruction bytes, independently of `get_opcode`: the
two exact whole-word matches, the unconditionally mapped first nibbles, and
the five ambiguous families with their mapped second-level patterns. -/
def recognized_pattern (first_byte second_byte : Nat) : Bool :=
  let n1 := get_upper_nibble first_byte
  let nl := get_lower_nibble second_byte
  if n1 = 0x5 then decide (nl = 0x0)
  else if n1 = 0x8 then decide (nl ≤ 0x7) || decide (nl = 0xE)
  else if n1 = 0x9 then decide (nl = 0x0)
  else if n1 = 0xE then decide (second_byte = 0x9E) || decide (second_byte = 0xA1)
  else if n1 = 0xF then
    decide (second_byte = 0x07) || decide (second_byte = 0x0A) ||
    decide (second_byte = 0x15) || decide (second_byte = 0x18) ||
    decide (second_byte = 0x1E) || decide (second_byte = 0x29) ||
    decide (second_byte = 0x33) || decide (second_byte = 0x55) ||
    decide (second_byte = 0x65)
  else true

/-! ## Machine state (src/interpreter.rs, struct `Interpreter`)

The SDL `canvas` and `audio_device` fields are external collaborators holding
no emulation state and are dropped (the audio status calls are state
no-ops). -/

/-- The emulated hardware (struct `Interpreter`).  Arrays are total functions
out of `Nat`; the keyboard set is its membership function. -/
structure Interp where
  is_running : Bool
  ram : Nat → Nat
  registers : Nat → Nat
  register_i : Nat
  delay_timer : Nat
  sound_timer : Nat
  program_counter : Nat
  stack_pointer : Nat
  stack : Nat → Nat
  keyboard : Nat → Bool
  should_wait_for_key : Bool
  wait_for_key_register : Nat
  should_wait_for_display_refresh : Bool
  wait_for_display_refresh_data : Nat × Nat × Nat
  drawing_buffer : Nat → Bool
  quirk_config : QuirkConfig

/-- The constant `HEXADECIMAL_DIGIT_SPRITES`: the 80-byte glyph table for
hexadecimal digits 0-F, 5 bytes per digit. -/
def HEXADECIMAL_DIGIT_SPRITES : List Nat :=
  [0xF0, 0x90, 0x90, 0x90, 0xF0,
   0x20, 0x60, 0x20, 0x20, 0x70,
   0xF0, 0x10, 0xF0, 0x80, 0xF0,
   0xF0, 0x10, 0xF0, 0x10, 0xF0,
   0x90, 0x90, 0xF0, 0x10, 0x10,
   0xF0, 0x80, 0xF0, 0x10, 0xF0,
   0xF0, 0x80, 0xF0, 0x90, 0xF0,
   0xF0, 0x10, 0x20, 0x40, 0x40,
   0xF0, 0x90, 0xF0, 0x90, 0xF0,
   0xF0, 0x90, 0xF0, 0x10, 0xF0,
   0xF0, 0x90, 0xF0, 0x90, 0x90,
   0xE0, 0x90, 0xE0, 0x90, 0xE0,
   0xF0, 0x80, 0x80, 0x80, 0xF0,
   0xE0, 0x90, 0x90, 0x90, 0xE0,
   0xF0, 0x80, 0xF0, 0x80, 0xF0,
   0xF0, 0x80, 0xF0, 0x80, 0x80]

/-- `Interpreter::clear_screen`: every pixel of the drawing buffer is set to
off (the canvas repaint is external). -/
def clear_screen (s : Interp) : Interp :=
  { s with drawing_buffer := fun _ => false }

/-- `Interpreter::new_with_sdl`: default values everywhere, the glyph table
copied into the first 80 bytes of RAM, followed by a screen clear. -/
def new_with_sdl (quirk_config : QuirkConfig) : Interp :=
  clear_screen
    { is_running := false
      ram := fun a => if a < 80 then HEXADECIMAL_DIGIT_SPRITES.getD a 0 else 0
      registers := fun _ => 0
      register_i := 0
      delay_timer := 0
      sound_timer := 0
      program_counter := 0
      stack_pointer := 0
      stack := fun _ => 0
      keyboard := fun _ => false
      should_wait_for_key := false
      wait_for_key_register := 0
      should_wait_for_display_refresh := false
      wait_for_display_refresh_data := (0, 0, 0)
      drawing_buffer := fun _ => false
      quirk_config := quirk_config }

/-- `Interpreter::load_game`: RAM beyond the glyph table is zeroed and the
game bytes are copied in starting at 0x200; every other field is reset to its
default, the program counter is set to 0x200 and the machine starts
running. -/
def load_game (s : Interp) (game_data : List Nat) : Interp :=
  { s with
    ram := fun a =>
      if a < 80 then s.ram a
      else if 0x200 ≤ a ∧ a < 0x200 + game_data.length then game_data.getD (a - 0x200) 0
      else 0
    registers := fun _ => 0
    register_i := 0
    delay_timer := 0
    sound_timer := 0
    stack_pointer := 0
    stack := fun _ => 0
    keyboard := fun _ => false
    should_wait_for_key := false
    wait_for_key_register := 0
    should_wait_for_display_refresh := false
    wait_for_display_refresh_data := (0, 0, 0)
    drawing_buffer := fun _ => false
    program_counter := 0x200
    is_running := true }

/-! ## Key handling -/

/-- The physical keys of the fixed key map; `other` stands for every
unmapped physical key. -/
inductive Keycode
  | Num1 | Num2 | Num3 | Num4 | Q | W | E | R | A | S | D | F | Z | X | C | V
  | other
deriving DecidableEq

/-- `Interpreter::get_key_mapping`: the fixed physical-to-logical key
table. -/
def get_key_mapping : Keycode → Option Nat
  | .Num1 => some 0x1
  | .Num2 => some 0x2
  | .Num3 => some 0x3
  | .Num4 => some 0xC
  | .Q => some 0x4
  | .W => some 0x5
  | .E => some 0x6
  | .R => some 0xD
  | .A => some 0x7
  | .S => some 0x8
  | .D => some 0x9
  | .F => some 0xE
  | .Z => some 0xA
  | .X => some 0x0
  | .C => some 0xB
  | .V => some 0xF
  | .other => none

/-- `Interpreter::handle_key_press`: when waiting for a key, the pressed key
is latched into the destination register; the key is then added to the
keyboard set. -/
def handle_key_press (s : Interp) (keycode : Keycode) : Interp :=
  match get_key_mapping keycode with
  | none => s
  | some key =>
    let s :=
      if s.should_wait_for_key = true then
        { s with registers := Function.update s.registers s.wait_for_key_register key }
      else s
    { s with keyboard := Function.update s.keyboard key true }

/-- `Interpreter::handle_key_release`: the key is removed from the keyboard
set; when waiting for a key and the destination register holds this key, the
wait is lifted. -/
def handle_key_release (s : Interp) (keycode : Keycode) : Interp :=
  match get_key_mapping keycode with
  | none => s
  | some key =>
    let s := { s with keyboard := Function.update s.keyboard key false }
    if s.should_wait_for_key = true ∧ s.registers s.wait_for_key_register = key then
      { s with should_wait_for_key := false }
    else s

/-! ## Quirk helpers -/

/-- `Interpreter::handle_reset_quirk`: conditionally zero register F. -/
def handle_reset_quirk (s : Interp) : Interp :=
  match s.quirk_config.reset_vf with
  | .Reset => { s with registers := Function.update s.registers 0xF 0x0 }
  | .NoReset => s

/-- `Interpreter::handle_memory_increment_quirk`: conditionally increment
register I. -/
def handle_memory_increment_quirk (s : Interp) : Interp :=
  match s.quirk_config.memory with
  | .Increment => { s with register_i := s.register_i + 1 }
  | .NoIncrement => s

/-! ## Instruction handlers -/

/-- `Interpreter::jump_addr`. -/
def jump_addr (s : Interp) (address : Nat) : Interp :=
  { s with program_counter := address }

/-- `Interpreter::skip_register_equals_value`. -/
def skip_register_equals_value (s : Interp) (register value : Nat) : Interp :=
  if s.registers register = value then { s with program_counter := s.program_counter + 2 }
  else s

/-- `Interpreter::skip_register_not_equals_value`. -/
def skip_register_not_equals_value (s : Interp) (register value : Nat) : Interp :=
  if s.registers register ≠ value then { s with program_counter := s.program_counter + 2 }
  else s

/-- `Interpreter::skip_registers_equal`. -/
def skip_registers_equal (s : Interp) (first_register second_register : Nat) : Interp :=
  if s.registers first_register = s.registers second_register then
    { s with program_counter := s.program_counter + 2 }
  else s

/-- `Interpreter::skip_registers_not_equal`. -/
def skip_registers_not_equal (s : Interp) (first_register second_register : Nat) : Interp :=
  if s.registers first_register ≠ s.registers second_register then
    { s with program_counter := s.program_counter + 2 }
  else s

/-- `Interpreter::load_value`. -/
def load_value (s : Interp) (register value : Nat) : Interp :=
  { s with registers := Function.update s.registers register value }

/-- `Interpreter::add_value`: 8-bit truncating addition of an immediate
(`(Vx + kk) & 0xFF`). -/
def add_value (s : Interp) (register value : Nat) : Interp :=
  { s with registers :=
      Function.update s.registers register ((s.registers register + value) % 256) }

/-- `Interpreter::load_register_value`. -/
def load_register_value (s : Interp) (first_register second_register : Nat) : Interp :=
  { s with registers :=
      Function.update s.registers first_register (s.registers second_register) }

/-- `Interpreter::or` (named `or_registers` here because `or` is taken by the
Lean prelude): bitwise OR in place, then the reset quirk. -/
def or_registers (s : Interp) (first_register second_register : Nat) : Interp :=
  handle_reset_quirk
    { s with registers :=
        (Function.update s.registers first_register
          (Nat.lor (s.registers first_register) (s.registers second_register))) }

/-- `Interpreter::and` (named `and_registers` here): bitwise AND in place,
then the reset quirk. -/
def and_registers (s : Interp) (first_register second_register : Nat) : Interp :=
  handle_reset_quirk
    { s with registers :=
        (Function.update s.registers first_register
          (Nat.land (s.registers first_register) (s.registers second_register))) }

/-- `Interpreter::xor` (named `xor_registers` here): bitwise XOR in place,
then the reset quirk. -/
def xor_registers (s : Interp) (first_register second_register : Nat) : Interp :=
  handle_reset_quirk
    { s with registers :=
        (Function.update s.registers first_register
          (Nat.xor (s.registers first_register) (s.registers second_register))) }

/-- `Interpreter::random`: a fresh random byte ANDed with the mask; the
random byte is supplied as the oracle argument `rnd` (reduced to a byte). -/
def random (rnd : Nat) (s : Interp) (register value : Nat) : Interp :=
  { s with registers :=
      Function.update s.registers register (Nat.land (rnd % 256) value) }

/-- `Interpreter::load_register_i`. -/
def load_register_i (s : Interp) (address : Nat) : Interp :=
  { s with register_i := address }

/-- `Interpreter::jump_address_v0`: jump to the address plus V0, or plus the
register named by the second nibble of the address under the jumping
quirk. -/
def jump_address_v0 (s : Interp) (address : Nat) : Interp :=
  let target_register : Nat :=
    match s.quirk_config.jumping with
    | .V0 => 0
    | .Vx => address / 256 % 16
  jump_addr s (address + s.registers target_register)

/-- `Interpreter::load_delay_timer`. -/
def load_delay_timer (s : Interp) (register : Nat) : Interp :=
  { s with registers := Function.update s.registers register s.delay_timer }

/-- `Interpreter::set_delay_timer`. -/
def set_delay_timer (s : Interp) (register : Nat) : Interp :=
  { s with delay_timer := s.registers register }

/-- `Interpreter::set_sound_timer` (the audio status update is external). -/
def set_sound_timer (s : Interp) (register : Nat) : Interp :=
  { s with sound_timer := s.registers register }

/-- `Interpreter::add_register_i`. -/
def add_register_i (s : Interp) (register : Nat) : Interp :=
  { s with register_i := s.register_i + s.registers register }

/-- `Interpreter::add_registers`: 8-bit truncating sum into the first
register, then register F is set to whether the untruncated sum exceeded
255.  The flag write is the final register write. -/
def add_registers (s : Interp) (first_register second_register : Nat) : Interp :=
  let sum := s.registers first_register + s.registers second_register
  let s := { s with registers := Function.update s.registers first_register (sum % 256) }
  { s with registers :=
      Function.update s.registers 0xF (if 255 < sum then 1 else 0) }

/-- `Interpreter::bounded_subtraction`: `u8::overflowing_sub` puts the
wrapping difference into the result register, then register F is set to 1
exactly when no underflow happened.  The flag write is the final register
write. -/
def bounded_subtraction (s : Interp)
    (minuend_register subtrahend_register result_register : Nat) : Interp :=
  let difference :=
    (s.registers minuend_register + 256 - s.registers subtrahend_register % 256) % 256
  let did_underflow := s.registers minuend_register < s.registers subtrahend_register
  let s := { s with registers := Function.update s.registers result_register difference }
  { s with registers :=
      Function.update s.registers 0xF (if did_underflow then 0 else 1) }

/-- `Interpreter::bit_shift_right`: the shifted register is chosen by the
shifting quirk, its least significant bit is recorded, the shifted value goes
into the first register and the recorded bit goes into register F last. -/
def bit_shift_right (s : Interp) (first_register second_register : Nat) : Interp :=
  let target_shift_register :=
    match s.quirk_config.shifting with
    | .Vy => second_register
    | .Vx => first_register
  let will_bit_run_off : Nat := if s.registers target_shift_register % 2 = 1 then 1 else 0
  let s := { s with registers :=
      Function.update s.registers first_register (s.registers target_shift_register / 2) }
  { s with registers := Function.update s.registers 0xF will_bit_run_off }

/-- `Interpreter::bit_shift_left`: as `bit_shift_right` but the most
significant bit is recorded and the value is doubled modulo 256. -/
def bit_shift_left (s : Interp) (first_register second_register : Nat) : Interp :=
  let target_shift_register :=
    match s.quirk_config.shifting with
    | .Vy => second_register
    | .Vx => first_register
  let will_bit_run_off : Nat :=
    if s.registers target_shift_register / 128 % 2 = 1 then 1 else 0
  let s := { s with registers :=
      (Function.update s.registers first_register
        (s.registers target_shift_register * 2 % 256)) }
  { s with registers := Function.update s.registers 0xF will_bit_run_off }

/-- `Interpreter::binary_coded_decimal`: the loop `for i in (0..=2).rev()`
unrolled — the units digit is written at offset 2, the value divided by 10,
the tens digit at offset 1, the value divided by 10 again and the hundreds
digit at offset 0. -/
def binary_coded_decimal (s : Interp) (register : Nat) : Interp :=
  let value := s.registers register
  let s := { s with ram := Function.update s.ram (s.register_i + 2) (value % 10) }
  let value := value / 10
  let s := { s with ram := Function.update s.ram (s.register_i + 1) (value % 10) }
  let value := value / 10
  { s with ram := Function.update s.ram (s.register_i + 0) (value % 10) }

/-- `Interpreter::call_addr`: push the program counter, bump the stack
pointer, jump. -/
def call_addr (s : Interp) (address : Nat) : Interp :=
  { s with
    stack := Function.update s.stack s.stack_pointer s.program_counter
    stack_pointer := s.stack_pointer + 1
    program_counter := address }

/-- `Interpreter::return_from_subroutine`: jump to the top of stack and drop
it. -/
def return_from_subroutine (s : Interp) : Interp :=
  { s with
    program_counter := s.stack (s.stack_pointer - 1)
    stack_pointer := s.stack_pointer - 1 }

/-- `Interpreter::set_register_i_hex_sprite_location`: `Vx * 5` computed in
8-bit arithmetic (so it wraps modulo 256) and widened into register I. -/
def set_register_i_hex_sprite_location (s : Interp) (register : Nat) : Interp :=
  { s with register_i := s.registers register * 5 % 256 }

/-- `Interpreter::skip_key_pressed`. -/
def skip_key_pressed (s : Interp) (register : Nat) : Interp :=
  if s.keyboard (s.registers register) = true then
    { s with program_counter := s.program_counter + 2 }
  else s

/-- `Interpreter::skip_key_not_pressed`. -/
def skip_key_not_pressed (s : Interp) (register : Nat) : Interp :=
  if s.keyboard (s.registers register) = false then
    { s with program_counter := s.program_counter + 2 }
  else s

/-- `Interpreter::load_key_press`: record the destination register and
suspend until a key press/release pair arrives. -/
def load_key_press (s : Interp) (register : Nat) : Interp :=
  { s with should_wait_for_key := true, wait_for_key_register := register }

/-- `Interpreter::draw`: stash the draw parameters and suspend until the next
display refresh. -/
def draw (s : Interp) (first_register second_register : Nat) (length : Nat) : Interp :=
  { s with
    should_wait_for_display_refresh := true
    wait_for_display_refresh_data := (first_register, second_register, length) }

/-! ## Block register transfer loops (`store_registers` / `load_registers`)

The Rust `for i in 0..=register` loops are embedded as recursion over the
list `List.range (register + 1)` of loop indices. -/

/-- One pass of the loop body of `Interpreter::store_registers` per list
element: the current register is written to RAM at register I plus the
quirk-dependent adjustment, then the memory increment quirk runs. -/
def store_registers_loop : List Nat → Interp → Interp
  | [], s => s
  | i :: rest, s =>
    let index_adjustment :=
      match s.quirk_config.memory with
      | .Increment => 0
      | .NoIncrement => i
    let s := { s with
      ram := Function.update s.ram (s.register_i + index_adjustment) (s.registers i) }
    store_registers_loop rest (handle_memory_increment_quirk s)

/-- `Interpreter::store_registers`. -/
def store_registers (s : Interp) (register : Nat) : Interp :=
  store_registers_loop (List.range (register + 1)) s

/-- One pass of the loop body of `Interpreter::load_registers` per list
element: the current register is read from RAM at register I plus the
quirk-dependent adjustment, then the memory increment quirk runs. -/
def load_registers_loop : List Nat → Interp → Interp
  | [], s => s
  | i :: rest, s =>
    let index_adjustment :=
      match s.quirk_config.memory with
      | .Increment => 0
      | .NoIncrement => i
    let s := { s with
      registers :=
        Function.update s.registers i (s.ram (s.register_i + index_adjustment)) }
    load_registers_loop rest (handle_memory_increment_quirk s)

/-- `Interpreter::load_registers`. -/
def load_registers (s : Interp) (register : Nat) : Interp :=
  load_registers_loop (List.range (register + 1)) s

/-! ## The draw-completion algorithm (`complete_draw`) -/

/-- The sprite bit of column `j` of a sprite byte
(`(sprite_byte >> (7 - j)) & 1`). -/
def bit_of (sprite_byte j : Nat) : Nat := sprite_byte / 2 ^ (7 - j) % 2

/-- The innermost body of `Interpreter::complete_draw` for one already
clipped/wrapped pixel coordinate: register F is raised on a collision and the
pixel is XORed with the sprite bit. -/
def draw_pixel (s : Interp) (buffer_y buffer_x sprite_byte j : Nat) : Interp :=
  let target_bit := bit_of sprite_byte j
  let drawing_buffer_index := buffer_y * 64 + buffer_x
  let display_bit := s.drawing_buffer drawing_buffer_index
  let s :=
    if display_bit = true ∧ target_bit = 1 then
      { s with registers := Function.update s.registers 0xF 1 }
    else s
  let is_set := Bool.xor display_bit (target_bit == 1)
  { s with drawing_buffer := Function.update s.drawing_buffer drawing_buffer_index is_set }

/-- The inner `for j in 0..8` loop of `Interpreter::complete_draw` over a
list of column indices: under the clip quirk a column falling off the right
edge is skipped, under the wrap quirk its x coordinate is reduced modulo
64. -/
def draw_row_cols (base_x buffer_y sprite_byte : Nat) : List Nat → Interp → Interp
  | [], s => s
  | j :: rest, s =>
    let s :=
      match s.quirk_config.clipping with
      | .Clip =>
        if 64 ≤ base_x + j then s
        else draw_pixel s buffer_y (base_x + j) sprite_byte j
      | .Wrap => draw_pixel s buffer_y ((base_x + j) % 64) sprite_byte j
    draw_row_cols base_x buffer_y sprite_byte rest s

/-- The outer `for i in 0..length` loop of `Interpreter::complete_draw` over
a list of row indices: under the clip quirk a row falling off the bottom edge
is skipped, under the wrap quirk its y coordinate is reduced modulo 32; the
sprite byte of the row is read at register I plus the row index. -/
def draw_rows (base_x base_y : Nat) : List Nat → Interp → Interp
  | [], s => s
  | i :: rest, s =>
    let s :=
      match s.quirk_config.clipping with
      | .Clip =>
        if 32 ≤ base_y + i then s
        else
          draw_row_cols base_x (base_y + i) (s.ram (s.register_i + i)) (List.range 8) s
      | .Wrap =>
        draw_row_cols base_x ((base_y + i) % 32) (s.ram (s.register_i + i)) (List.range 8) s
    draw_rows base_x base_y rest s

/-- `Interpreter::complete_draw`: the base coordinates are the operand
registers reduced modulo the screen size, register F is reset to 0 and the
sprite rows are drawn. -/
def complete_draw (s : Interp) (first_register second_register : Nat) (length : Nat) :
    Interp :=
  let base_x := s.registers first_register % 64
  let base_y := s.registers second_register % 32
  let s := { s with registers := Function.update s.registers 0xF 0 }
  draw_rows base_x base_y (List.range length) s

/-! ## Dispatch, cycle, frame -/

/-- `Interpreter::handle_opcode`: the exhaustive dispatch on the decoded
opcode.  `rnd` is the oracle byte consumed by the `Random` opcode. -/
def handle_opcode (rnd : Nat) (s : Interp) (opcode : Opcode) : Interp :=
  match opcode with
  | .ClearScreen => clear_screen s
  | .Return => return_from_subroutine s
  | .JumpAddr address => jump_addr s address
  | .SystemAddr address => call_addr s address
  | .CallAddr address => call_addr s address
  | .SkipRegisterEqualsValue register value => skip_register_equals_value s register value
  | .SkipRegisterNotEqualsValue register value =>
    skip_register_not_equals_value s register value
  | .SkipRegistersEqual first_register second_register =>
    skip_registers_equal s first_register second_register
  | .LoadValue register value => load_value s register value
  | .AddValue register value => add_value s register value
  | .LoadRegisterValue first_register second_register =>
    load_register_value s first_register second_register
  | .Or first_register second_register => or_registers s first_register second_register
  | .And first_register second_register => and_registers s first_register second_register
  | .Xor first_register second_register => xor_registers s first_register second_register
  | .AddRegisters first_register second_register =>
    add_registers s first_register second_register
  | .SubtractFromFirstRegister first_register second_register =>
    bounded_subtraction s first_register second_register first_register
  | .BitShiftRight first_register second_register =>
    bit_shift_right s first_register second_register
  | .SubtractFromSecondRegister first_register second_register =>
    bounded_subtraction s second_register first_register first_register
  | .BitShiftLeft first_register second_register =>
    bit_shift_left s first_register second_register
  | .SkipRegistersNotEqual first_register second_register =>
    skip_registers_not_equal s first_register second_register
  | .LoadRegisterI address => load_register_i s address
  | .JumpAddrV0 address => jump_address_v0 s address
  | .Random register value => random rnd s register value
  | .Draw first_register second_register length =>
    match s.quirk_config.display_wait with
    | .Wait => draw s first_register second_register length
    | .NoWait => complete_draw s first_register second_register length
  | .SkipKeyPressed register => skip_key_pressed s register
  | .SkipKeyNotPressed register => skip_key_not_pressed s register
  | .LoadDelayTimer register => load_delay_timer s register
  | .LoadKeyPress register => load_key_press s register
  | .SetDelayTimer register => set_delay_timer s register
  | .SetSoundTimer register => set_sound_timer s register
  | .AddRegisterI register => add_register_i s register
  | .SetIHexSpriteLocation register => set_register_i_hex_sprite_location s register
  | .BinaryCodedDecimal register => binary_coded_decimal s register
  | .StoreRegisters register => store_registers s register
  | .LoadRegisters register => load_registers s register

/-- `Interpreter::handle_cycle`: a no-op while not running or while either
suspension flag is set; otherwise fetch the two bytes at the program counter,
decode them, advance the program counter by 2 and dispatch.  A decode failure
terminates the process, hence the `Option`. -/
def handle_cycle (rnd : Nat) (s : Interp) : Option Interp :=
  if s.is_running = false ∨ s.should_wait_for_key = true ∨
      s.should_wait_for_display_refresh = true then
    some s
  else
    match get_opcode (s.ram s.program_counter) (s.ram (s.program_counter + 1)) with
    | .panicked => none
    | .instruction opcode =>
      some (handle_opcode rnd { s with program_counter := s.program_counter + 2 } opcode)

/-- `Interpreter::handle_timers`: both timers decrement, saturating at zero
(the audio stop signal is external). -/
def handle_timers (s : Interp) : Interp :=
  { s with sound_timer := s.sound_timer - 1, delay_timer := s.delay_timer - 1 }

/-- `Interpreter::handle_frame`: a no-op while not running; otherwise the
timers tick (the canvas repaint is external) and a pending deferred draw is
completed and its suspension cleared. -/
def handle_frame (s : Interp) : Interp :=
  if s.is_running = false then s
  else
    let s := handle_timers s
    if s.should_wait_for_display_refresh = true then
      let s := complete_draw s s.wait_for_display_refresh_data.1
        s.wait_for_display_refresh_data.2.1 s.wait_for_display_refresh_data.2.2
      { s with should_wait_for_display_refresh := false }
    else s

/-! ## Driving events -/

/-- The events the host loop feeds the interpreter: instruction cycles
(carrying the random-byte oracle of a possible `Random` opcode), frame ticks
and key presses/releases. -/
inductive Event
  | cycle (rnd : Nat)
  | frame
  | key_press (keycode : Keycode)
  | key_release (keycode : Keycode)
deriving DecidableEq

/-- One driving event applied to the machine; `none` when the cycle hit an
unrecognized opcode and the process terminated. -/
def step (s : Interp) : Event → Option Interp
  | .cycle rnd => handle_cycle rnd s
  | .frame => some (handle_frame s)
  | .key_press keycode => some (handle_key_press s keycode)
  | .key_release keycode => some (handle_key_release s keycode)

/-- A whole event sequence applied to the machine. -/
def run (s : Interp) : List Event → Option Interp
  | [] => some s
  | e :: es =>
    match step s e with
    | none => none
    | some s => run s es

/-! ## Concrete states used as witnesses and counterexamples -/

/-- A freshly constructed machine whose sixteen registers all hold 200,
exhibiting the flags-register corner of the arithmetic opcodes. -/
def vf_corner_state : Interp :=
  { new_with_sdl QuirkConfig.new with registers := fun _ => 200 }

/-- A freshly constructed machine with V1 = 0x02, V2 = 0x0E and
V3 = 0x0F, the operand values of the subtraction examples of the
specification. -/
def sub_example_state : Interp :=
  { new_with_sdl QuirkConfig.new with
    registers := fun r => if r = 1 then 0x02 else if r = 2 then 0x0E
      else if r = 3 then 0x0F else 0 }

/-- A freshly constructed machine with V3 = 218 and index register 0x783,
the example input of the binary-coded-decimal property of the
specification. -/
def bcd_example_state : Interp :=
  { new_with_sdl QuirkConfig.new with
    registers := fun r => if r = 3 then 218 else 0
    register_i := 0x783 }

/-- A freshly constructed machine with V6 = 0xA, a digit value for the
set-index-to-hex-sprite-location opcode. -/
def hex_sprite_example_state : Interp :=
  { new_with_sdl QuirkConfig.new with
    registers := fun r => if r = 6 then 0xA else 0 }

/-- A freshly constructed running machine with V1 = 63 (an x coordinate on
the right screen edge) and every other register 0; the index register 0
points at the digit-0 glyph sprite. -/
def draw_example_state : Interp :=
  { new_with_sdl QuirkConfig.new with
    is_running := true
    registers := fun r => if r = 1 then 63 else 0 }

/-- Agreement of two machine states on every field a draw can never touch
(everything except the register file and the drawing buffer). -/
def agrees_except_draw (s t : Interp) : Prop :=
  t.is_running = s.is_running ∧ t.ram = s.ram ∧ t.register_i = s.register_i
  ∧ t.delay_timer = s.delay_timer ∧ t.sound_timer = s.sound_timer
  ∧ t.program_counter = s.program_counter ∧ t.stack_pointer = s.stack_pointer
  ∧ t.stack = s.stack ∧ t.keyboard = s.keyboard
  ∧ t.should_wait_for_key = s.should_wait_for_key
  ∧ t.wait_for_key_register = s.wait_for_key_register
  ∧ t.should_wait_for_display_refresh = s.should_wait_for_display_refresh
  ∧ t.wait_for_display_refresh_data = s.wait_for_display_refresh_data
  ∧ t.quirk_config = s.quirk_config

/-- A freshly loaded machine whose program is the single instruction 0xF50A
(load key press into V5). -/
def key_wait_cex_state : Interp :=
  load_game (new_with_sdl QuirkConfig.new) [0xF5, 0x0A]

/-- A running machine suspended waiting for a key, destination register
V5. -/
def key_waiting_state : Interp :=
  { load_game (new_with_sdl QuirkConfig.new) [0xF5, 0x0A] with
    should_wait_for_key := true
    wait_for_key_register := 5
    program_counter := 0x202 }

/-- The store-registers equivalence of the auto-increment quirk at state `s`
for block size `n + 1` (registers 0..n): both quirk settings produce the same
final memory image — registers 0..n written at I..I+n, every other cell
untouched — and agree on every machine field other than the index register,
which stays at I without the quirk and ends at I + n + 1 with it. -/
def store_registers_quirk_equiv (s : Interp) (n : Nat) : Prop :=
  let tInc := store_registers
    { s with quirk_config :=
        { s.quirk_config with memory := MemoryIncrementQuirk.Increment } } n
  let tNo := store_registers
    { s with quirk_config :=
        { s.quirk_config with memory := MemoryIncrementQuirk.NoIncrement } } n
  tInc.ram = tNo.ram
  ∧ (∀ k, k ≤ n → tInc.ram (s.register_i + k) = s.registers k)
  ∧ (∀ a, a < s.register_i ∨ s.register_i + n < a → tInc.ram a = s.ram a)
  ∧ tNo.register_i = s.register_i
  ∧ tInc.register_i = s.register_i + (n + 1)
  ∧ tInc.registers = s.registers ∧ tNo.registers = s.registers
  ∧ tInc.program_counter = s.program_counter ∧ tNo.program_counter = s.program_counter
  ∧ tInc.stack_pointer = s.stack_pointer ∧ tNo.stack_pointer = s.stack_pointer
  ∧ tInc.stack = s.stack ∧ tNo.stack = s.stack
  ∧ tInc.delay_timer = s.delay_timer ∧ tNo.delay_timer = s.delay_timer
  ∧ tInc.sound_timer = s.sound_timer ∧ tNo.sound_timer = s.sound_timer
  ∧ tInc.keyboard = s.keyboard ∧ tNo.keyboard = s.keyboard
  ∧ tInc.should_wait_for_key = s.should_wait_for_key
  ∧ tNo.should_wait_for_key = s.should_wait_for_key
  ∧ tInc.wait_for_key_register = s.wait_for_key_register
  ∧ tNo.wait_for_key_register = s.wait_for_key_register
  ∧ tInc.should_wait_for_display_refresh = s.should_wait_for_display_refresh
  ∧ tNo.should_wait_for_display_refresh = s.should_wait_for_display_refresh
  ∧ tInc.wait_for_display_refresh_data = s.wait_for_display_refresh_data
  ∧ tNo.wait_for_display_refresh_data = s.wait_for_display_refresh_data
  ∧ tInc.drawing_buffer = s.drawing_buffer ∧ tNo.drawing_buffer = s.drawing_buffer
  ∧ tInc.is_running = s.is_running ∧ tNo.is_running = s.is_running

/-- The load-registers equivalence of the auto-increment quirk at state `s`
for block size `n + 1` (registers 0..n): both quirk settings produce the same
final register file — registers 0..n read from I..I+n, higher registers
untouched — leave memory intact, and agree on every machine field other than
the index register. -/
def load_registers_quirk_equiv (s : Interp) (n : Nat) : Prop :=
  let tInc := load_registers
    { s with quirk_config :=
        { s.quirk_config with memory := MemoryIncrementQuirk.Increment } } n
  let tNo := load_registers
    { s with quirk_config :=
        { s.quirk_config with memory := MemoryIncrementQuirk.NoIncrement } } n
  tInc.registers = tNo.registers
  ∧ (∀ k, k ≤ n → tInc.registers k = s.ram (s.register_i + k))
  ∧ (∀ r, n < r → tInc.registers r = s.registers r)
  ∧ tInc.ram = s.ram ∧ tNo.ram = s.ram
  ∧ tNo.register_i = s.register_i
  ∧ tInc.register_i = s.register_i + (n + 1)
  ∧ tInc.program_counter = s.program_counter ∧ tNo.program_counter = s.program_counter
  ∧ tInc.stack_pointer = s.stack_pointer ∧ tNo.stack_pointer = s.stack_pointer
  ∧ tInc.stack = s.stack ∧ tNo.stack = s.stack
  ∧ tInc.delay_timer = s.delay_timer ∧ tNo.delay_timer = s.delay_timer
  ∧ tInc.sound_timer = s.sound_timer ∧ tNo.sound_timer = s.sound_timer
  ∧ tInc.keyboard = s.keyboard ∧ tNo.keyboard = s.keyboard
  ∧ tInc.should_wait_for_key = s.should_wait_for_key
  ∧ tNo.should_wait_for_key = s.should_wait_for_key
  ∧ tInc.wait_for_key_register = s.wait_for_key_register
  ∧ tNo.wait_for_key_register = s.wait_for_key_register
  ∧ tInc.should_wait_for_display_refresh = s.should_wait_for_display_refresh
  ∧ tNo.should_wait_for_display_refresh = s.should_wait_for_display_refresh
  ∧ tInc.wait_for_display_refresh_data = s.wait_for_display_refresh_data
  ∧ tNo.wait_for_display_refresh_data = s.wait_for_display_refresh_data
  ∧ tInc.drawing_buffer = s.drawing_buffer ∧ tNo.drawing_buffer = s.drawing_buffer
  ∧ tInc.is_running = s.is_running ∧ tNo.is_running = s.is_running

/-! ## C2 — the flag write into VF is the last register write -/

/-- C2: for the register-register add, both subtraction directions and both
shifts, and for every pair of operand register indices — including when VF is
an operand or the destination — the value register F holds afterwards is the
flag computed from the operand values as they were before any write, so when
the destination register is VF its final value is the flag, not the
arithmetic result. -/
theorem flag_write_is_last_register_write (s : Interp) (x y : Nat) :
    ((add_registers s x y).registers 0xF
        = (if 255 < s.registers x + s.registers y then 1 else 0))
  ∧ ((bounded_subtraction s x y x).registers 0xF
        = (if s.registers x < s.registers y then 0 else 1))
  ∧ ((bounded_subtraction s y x x).registers 0xF
        = (if s.registers y < s.registers x then 0 else 1))
  ∧ ((bit_shift_right s x y).registers 0xF
        = (if s.registers (match s.quirk_config.shifting with
              | .Vy => y | .Vx => x) % 2 = 1 then 1 else 0))
  ∧ ((bit_shift_left s x y).registers 0xF
        = (if s.registers (match s.quirk_config.shifting with
              | .Vy => y | .Vx => x) / 128 % 2 = 1 then 1 else 0)) := by
  refine ⟨?_, ?_, ?_, ?_, ?_⟩
  · simp [add_registers, Function.update]
  · simp [bounded_subtraction, Function.update]
  · simp [bounded_subtraction, Function.update]
  · cases hq : s.quirk_config.shifting <;> simp [bit_shift_right, hq, Function.update]
  · cases hq : s.quirk_config.shifting <;> simp [bit_shift_left, hq, Function.update]

/-! ## C3 — register-register add -/

/-- C3 counterexample: with every register holding 200, the add-registers
opcode with both operands VF leaves VF holding the overflow flag 1, not the
truncated sum (200 + 200) mod 256 = 144, so the claimed equation fails for
the register pair x = y = 0xF. -/
theorem add_registers_stores_sum_cex :
    ¬ ((add_registers vf_corner_state 0xF 0xF).registers 0xF
        = (vf_corner_state.registers 0xF + vf_corner_state.registers 0xF) % 256) := by
  decide

/-- C3 (amended): for every pair of register indices with destination other
than VF, add-registers stores the truncated sum (a + b) mod 256 into Vx and
sets VF to 1 exactly when a + b exceeds 255; when the destination is VF the
flag write overwrites the stored sum. -/
theorem add_registers_spec (s : Interp) (x y : Nat)
    (hx : x < 16) (hy : y < 16) (hxF : x ≠ 0xF) :
    (add_registers s x y).registers x = (s.registers x + s.registers y) % 256
  ∧ (add_registers s x y).registers 0xF
      = (if 255 < s.registers x + s.registers y then 1 else 0) := by
  constructor
  · simp [add_registers, Function.update, hxF]
  · simp [add_registers, Function.update]

/-- C3 witness: the amended theorem applied to the pair (V3, V4) of the
machine whose registers all hold 200. -/
theorem add_registers_spec_witness :
    ((3 : Nat) < 16 ∧ (4 : Nat) < 16 ∧ (3 : Nat) ≠ 0xF)
  ∧ ((add_registers vf_corner_state 3 4).registers 3
        = (vf_corner_state.registers 3 + vf_corner_state.registers 4) % 256
    ∧ (add_registers vf_corner_state 3 4).registers 0xF
        = (if 255 < vf_corner_state.registers 3 + vf_corner_state.registers 4
           then 1 else 0)) :=
  ⟨⟨by decide, by decide, by decide⟩,
    add_registers_spec vf_corner_state 3 4 (by decide) (by decide) (by decide)⟩

/-! ## C4 — subtraction in both directions -/

/-- C4 counterexample: with every register holding 200, the subtraction
opcode Vx - Vy with x = y = 0xF leaves VF holding the no-borrow flag 1, not
the wrapping difference 200 - 200 = 0, so the claimed storing of the
difference into the first operand register fails for x = y = 0xF. -/
theorem bounded_subtraction_stores_difference_cex :
    ¬ ((bounded_subtraction vf_corner_state 0xF 0xF 0xF).registers 0xF
        = (vf_corner_state.registers 0xF + 256
            - vf_corner_state.registers 0xF % 256) % 256) := by
  decide

/-- C4 (amended): for every pair of register indices whose first operand
register is not VF, and all 8-bit contents, both subtraction directions store
the wrapping 8-bit difference into the first operand register and set VF to 1
exactly when the subtraction did not underflow; when the first operand
register is VF the flag write overwrites the difference. -/
theorem bounded_subtraction_spec (s : Interp) (x y : Nat)
    (hx : x < 16) (hy : y < 16)
    (ha : s.registers x < 256) (hb : s.registers y < 256) (hxF : x ≠ 0xF) :
    ((bounded_subtraction s x y x).registers x
        = (if s.registers y ≤ s.registers x then s.registers x - s.registers y
           else 256 + s.registers x - s.registers y))
  ∧ ((bounded_subtraction s x y x).registers 0xF
        = (if s.registers x < s.registers y then 0 else 1))
  ∧ ((bounded_subtraction s y x x).registers x
        = (if s.registers x ≤ s.registers y then s.registers y - s.registers x
           else 256 + s.registers y - s.registers x))
  ∧ ((bounded_subtraction s y x x).registers 0xF
        = (if s.registers y < s.registers x then 0 else 1)) := by
  refine ⟨?_, ?_, ?_, ?_⟩
  · have h1 : (bounded_subtraction s x y x).registers x
        = (s.registers x + 256 - s.registers y % 256) % 256 := by
      simp only [bounded_subtraction]
      rw [Function.update_noteq hxF, Function.update_same]
    rw [h1, Nat.mod_eq_of_lt hb]
    split <;> omega
  · simp [bounded_subtraction, Function.update]
  · have h1 : (bounded_subtraction s y x x).registers x
        = (s.registers y + 256 - s.registers x % 256) % 256 := by
      simp only [bounded_subtraction]
      rw [Function.update_noteq hxF, Function.update_same]
    rw [h1, Nat.mod_eq_of_lt ha]
    split <;> omega
  · simp [bounded_subtraction, Function.update]

/-- C4 witness: the amended theorem applied to the pair (V1, V2) holding
0x02 and 0x0E, the example values of the specification (0x02 - 0x0E wraps to
0xF4 with flag 0, 0x0E - 0x02 gives 0x0C with flag 1). -/
theorem bounded_subtraction_spec_witness :
    ((1 : Nat) < 16 ∧ (2 : Nat) < 16
      ∧ sub_example_state.registers 1 < 256 ∧ sub_example_state.registers 2 < 256
      ∧ (1 : Nat) ≠ 0xF)
  ∧ (((bounded_subtraction sub_example_state 1 2 1).registers 1
        = (if sub_example_state.registers 2 ≤ sub_example_state.registers 1
           then sub_example_state.registers 1 - sub_example_state.registers 2
           else 256 + sub_example_state.registers 1 - sub_example_state.registers 2))
    ∧ ((bounded_subtraction sub_example_state 1 2 1).registers 0xF
        = (if sub_example_state.registers 1 < sub_example_state.registers 2
           then 0 else 1))
    ∧ ((bounded_subtraction sub_example_state 2 1 1).registers 1
        = (if sub_example_state.registers 1 ≤ sub_example_state.registers 2
           then sub_example_state.registers 2 - sub_example_state.registers 1
           else 256 + sub_example_state.registers 2 - sub_example_state.registers 1))
    ∧ ((bounded_subtraction sub_example_state 2 1 1).registers 0xF
        = (if sub_example_state.registers 2 < sub_example_state.registers 1
           then 0 else 1))) :=
  ⟨⟨by decide, by decide, by decide, by decide, by decide⟩,
    bounded_subtraction_spec sub_example_state 1 2 (by decide) (by decide) (by decide)
      (by decide) (by decide)⟩

/-! ## C1 — decoding totality and the failure path -/

set_option maxRecDepth 2000 in
/-- The decoder hits its process-terminating failure path exactly on the
byte pairs outside the decode table of the specification. -/
theorem get_opcode_panicked_char (b1 b2 : Nat) (h1 : b1 < 256) (h2 : b2 < 256) :
    (get_opcode b1 b2).isPanicked = !(recognized_pattern b1 b2) := by
  have h16 : get_upper_nibble b1 < 16 := Nat.mod_lt _ (by norm_num)
  have hgu : b1 / 16 % 16 = get_upper_nibble b1 := rfl
  have hl16 : get_lower_nibble b2 < 16 := Nat.mod_lt _ (by norm_num)
  have hgl : b2 % 16 = get_lower_nibble b2 := rfl
  simp only [get_opcode, recognized_pattern]
  generalize hn1 : get_upper_nibble b1 = n1 at h16 hgu ⊢
  generalize hnl : get_lower_nibble b2 = nl at hl16 hgl ⊢
  interval_cases n1
  · by_cases hc1 : b1 = 0 ∧ b2 = 224
    · simp [hc1, DecodeOutcome.isPanicked]
    by_cases hc2 : b1 = 0 ∧ b2 = 238
    · simp [hc1, hc2, DecodeOutcome.isPanicked]
    simp [hc1, hc2, DecodeOutcome.isPanicked]
  · have hb1 : ¬(b1 = 0) := by omega
    simp [hb1, DecodeOutcome.isPanicked]
  · have hb1 : ¬(b1 = 0) := by omega
    simp [hb1, DecodeOutcome.isPanicked]
  · have hb1 : ¬(b1 = 0) := by omega
    simp [hb1, DecodeOutcome.isPanicked]
  · have hb1 : ¬(b1 = 0) := by omega
    simp [hb1, DecodeOutcome.isPanicked]
  · have hb1 : ¬(b1 = 0) := by omega
    by_cases hb : nl = 0 <;> simp [hb1, hb, DecodeOutcome.isPanicked]
  · have hb1 : ¬(b1 = 0) := by omega
    simp [hb1, DecodeOutcome.isPanicked]
  · have hb1 : ¬(b1 = 0) := by omega
    simp [hb1, DecodeOutcome.isPanicked]
  · have hb1 : ¬(b1 = 0) := by omega
    interval_cases nl <;> simp [hb1, DecodeOutcome.isPanicked]
  · have hb1 : ¬(b1 = 0) := by omega
    by_cases hb : nl = 0 <;> simp [hb1, hb, DecodeOutcome.isPanicked]
  · have hb1 : ¬(b1 = 0) := by omega
    simp [hb1, DecodeOutcome.isPanicked]
  · have hb1 : ¬(b1 = 0) := by omega
    simp [hb1, DecodeOutcome.isPanicked]
  · have hb1 : ¬(b1 = 0) := by omega
    simp [hb1, DecodeOutcome.isPanicked]
  · have hb1 : ¬(b1 = 0) := by omega
    simp [hb1, DecodeOutcome.isPanicked]
  · have hb1 : ¬(b1 = 0) := by omega
    by_cases hA : b2 = 0x9E <;> by_cases hB : b2 = 0xA1 <;>
      simp [hb1, hA, hB, DecodeOutcome.isPanicked]
  · have hb1 : ¬(b1 = 0) := by omega
    by_cases h07 : b2 = 0x07
    · simp [hb1, h07, DecodeOutcome.isPanicked]
    by_cases h0A : b2 = 0x0A
    · simp [hb1, h07, h0A, DecodeOutcome.isPanicked]
    by_cases h15 : b2 = 0x15
    · simp [hb1, h07, h0A, h15, DecodeOutcome.isPanicked]
    by_cases h18 : b2 = 0x18
    · simp [hb1, h07, h0A, h15, h18, DecodeOutcome.isPanicked]
    by_cases h1E : b2 = 0x1E
    · simp [hb1, h07, h0A, h15, h18, h1E, DecodeOutcome.isPanicked]
    by_cases h29 : b2 = 0x29
    · simp [hb1, h07, h0A, h15, h18, h1E, h29, DecodeOutcome.isPanicked]
    by_cases h33 : b2 = 0x33
    · simp [hb1, h07, h0A, h15, h18, h1E, h29, h33, DecodeOutcome.isPanicked]
    by_cases h55 : b2 = 0x55
    · simp [hb1, h07, h0A, h15, h18, h1E, h29, h33, h55, DecodeOutcome.isPanicked]
    by_cases h65 : b2 = 0x65
    · simp [hb1, h07, h0A, h15, h18, h1E, h29, h33, h55, h65,
        DecodeOutcome.isPanicked]
    simp [hb1, h07, h0A, h15, h18, h1E, h29, h33, h55, h65,
      DecodeOutcome.isPanicked]

/-- C1 counterexample: on the unmapped word 0x51C7 (high nibble 5, low
nibble of the second byte not 0) the decoder does not fail with a typed
error value returned up to the caller — it takes the process-terminating
`Unrecognized opcode` path, so emulation cannot recover. -/
theorem get_opcode_typed_error_cex :
    get_opcode 0x51 0xC7 = DecodeOutcome.panicked := by decide

/-- C1 (amended): for every 2-byte word matching none of the recognized
opcode patterns, decoding terminates the process on the `Unrecognized
opcode` path (it neither returns a typed error nor silently defaults to some
instruction); for every word matching a recognized pattern, decoding
produces exactly one Instruction value. -/
theorem get_opcode_total_on_recognized (b1 b2 : Nat) (h1 : b1 < 256) (h2 : b2 < 256) :
    (recognized_pattern b1 b2 = true →
      ∃ opcode, get_opcode b1 b2 = DecodeOutcome.instruction opcode)
  ∧ (recognized_pattern b1 b2 = false → get_opcode b1 b2 = DecodeOutcome.panicked)
  ∧ (∀ o o', get_opcode b1 b2 = DecodeOutcome.instruction o →
      get_opcode b1 b2 = DecodeOutcome.instruction o' → o = o') := by
  have h := get_opcode_panicked_char b1 b2 h1 h2
  refine ⟨?_, ?_, ?_⟩
  · intro hrec
    rw [hrec] at h
    cases hop : get_opcode b1 b2 with
    | instruction o => exact ⟨o, rfl⟩
    | panicked => rw [hop] at h; simp [DecodeOutcome.isPanicked] at h
  · intro hrec
    rw [hrec] at h
    cases hop : get_opcode b1 b2 with
    | instruction o => rw [hop] at h; simp [DecodeOutcome.isPanicked] at h
    | panicked => rfl
  · intro o o' ho ho'
    rw [ho] at ho'
    exact DecodeOutcome.instruction.inj ho'

/-- C1 witness: the amended theorem applied to the recognized word 0xF265
(block register load up to V2) and checked against the unmapped word of the
counterexample. -/
theorem get_opcode_total_on_recognized_witness :
    ((0xF2 : Nat) < 256 ∧ (0x65 : Nat) < 256)
  ∧ ((recognized_pattern 0xF2 0x65 = true →
        ∃ opcode, get_opcode 0xF2 0x65 = DecodeOutcome.instruction opcode)
    ∧ (recognized_pattern 0xF2 0x65 = false →
        get_opcode 0xF2 0x65 = DecodeOutcome.panicked)
    ∧ (∀ o o', get_opcode 0xF2 0x65 = DecodeOutcome.instruction o →
        get_opcode 0xF2 0x65 = DecodeOutcome.instruction o' → o = o')) :=
  ⟨⟨by decide, by decide⟩, get_opcode_total_on_recognized 0xF2 0x65 (by decide) (by decide)⟩

/-! ## C8 — binary-coded decimal -/

/-- C8: for every 8-bit register value and index register value with room for
three bytes, the binary-coded-decimal opcode writes the decimal digits most
significant first — hundreds at I, tens at I + 1, units at I + 2 — leaving
every other memory cell, the registers and the index register untouched. -/
theorem binary_coded_decimal_spec (s : Interp) (register : Nat)
    (hr : register < 16) (hv : s.registers register < 256)
    (hI : s.register_i + 2 < 4096) :
    (binary_coded_decimal s register).ram s.register_i = s.registers register / 100
  ∧ (binary_coded_decimal s register).ram (s.register_i + 1)
      = s.registers register / 10 % 10
  ∧ (binary_coded_decimal s register).ram (s.register_i + 2)
      = s.registers register % 10
  ∧ (∀ a, a ≠ s.register_i → a ≠ s.register_i + 1 → a ≠ s.register_i + 2 →
      (binary_coded_decimal s register).ram a = s.ram a)
  ∧ (binary_coded_decimal s register).registers = s.registers
  ∧ (binary_coded_decimal s register).register_i = s.register_i
  ∧ (binary_coded_decimal s register).program_counter = s.program_counter := by
  refine ⟨?_, ?_, ?_, ?_, ?_, ?_, ?_⟩
  · simp only [binary_coded_decimal, Nat.add_zero, Function.update_same]
    omega
  · simp only [binary_coded_decimal, Nat.add_zero]
    rw [Function.update_noteq (by omega), Function.update_same]
  · simp only [binary_coded_decimal, Nat.add_zero]
    rw [Function.update_noteq (by omega), Function.update_noteq (by omega),
      Function.update_same]
  · intro a h0 h1 h2
    simp only [binary_coded_decimal, Nat.add_zero]
    rw [Function.update_noteq h0, Function.update_noteq h1, Function.update_noteq h2]
  · simp [binary_coded_decimal]
  · simp [binary_coded_decimal]
  · simp [binary_coded_decimal]

/-- C8 witness: value 218 with index register 0x783 writes 2, 1 and 8 at
0x783, 0x784 and 0x785, the example of the specification. -/
theorem binary_coded_decimal_spec_witness :
    ((3 : Nat) < 16 ∧ bcd_example_state.registers 3 < 256
      ∧ bcd_example_state.register_i + 2 < 4096)
  ∧ ((binary_coded_decimal bcd_example_state 3).ram bcd_example_state.register_i
        = bcd_example_state.registers 3 / 100
    ∧ (binary_coded_decimal bcd_example_state 3).ram (bcd_example_state.register_i + 1)
        = bcd_example_state.registers 3 / 10 % 10
    ∧ (binary_coded_decimal bcd_example_state 3).ram (bcd_example_state.register_i + 2)
        = bcd_example_state.registers 3 % 10
    ∧ (∀ a, a ≠ bcd_example_state.register_i → a ≠ bcd_example_state.register_i + 1 →
        a ≠ bcd_example_state.register_i + 2 →
        (binary_coded_decimal bcd_example_state 3).ram a = bcd_example_state.ram a)
    ∧ (binary_coded_decimal bcd_example_state 3).registers = bcd_example_state.registers
    ∧ (binary_coded_decimal bcd_example_state 3).register_i
        = bcd_example_state.register_i
    ∧ (binary_coded_decimal bcd_example_state 3).program_counter
        = bcd_example_state.program_counter) :=
  ⟨⟨by decide, by decide, by decide⟩,
    binary_coded_decimal_spec bcd_example_state 3 (by decide) (by decide) (by decide)⟩

/-! ## C10 — hex sprite address computation -/

/-- C10: the set-index-to-hex-sprite-location opcode multiplies the source
register value by 5 in 8-bit arithmetic: for values up to 51 the index
register receives exactly 5 times the value (for digit values 0-15 an address
below 80, inside the glyph table); from 52 on the 8-bit product overflows 255
and the computed index register differs from the true product. -/
theorem set_register_i_hex_sprite_location_spec (s : Interp) (register : Nat)
    (hr : register < 16) (hv : s.registers register < 256) :
    (s.registers register ≤ 51 →
      (set_register_i_hex_sprite_location s register).register_i
        = 5 * s.registers register)
  ∧ (s.registers register ≤ 15 →
      (set_register_i_hex_sprite_location s register).register_i
          = 5 * s.registers register
      ∧ (set_register_i_hex_sprite_location s register).register_i < 80)
  ∧ (52 ≤ s.registers register →
      255 < s.registers register * 5
      ∧ (set_register_i_hex_sprite_location s register).register_i
          ≠ s.registers register * 5) := by
  simp only [set_register_i_hex_sprite_location]
  refine ⟨fun h => by omega, fun h => ?_, fun h => ⟨by omega, by omega⟩⟩
  have h5 : s.registers register * 5 % 256 = 5 * s.registers register := by omega
  exact ⟨by omega, by omega⟩

/-- C10 witness: the theorem applied to a machine whose register V6 holds the
digit value 0xA; the index register receives 50, the glyph address of the
digit A. -/
theorem set_register_i_hex_sprite_location_spec_witness :
    ((6 : Nat) < 16 ∧ hex_sprite_example_state.registers 6 < 256)
  ∧ ((hex_sprite_example_state.registers 6 ≤ 51 →
      (set_register_i_hex_sprite_location hex_sprite_example_state 6).register_i
        = 5 * hex_sprite_example_state.registers 6)
    ∧ (hex_sprite_example_state.registers 6 ≤ 15 →
      (set_register_i_hex_sprite_location hex_sprite_example_state 6).register_i
          = 5 * hex_sprite_example_state.registers 6
      ∧ (set_register_i_hex_sprite_location hex_sprite_example_state 6).register_i < 80)
    ∧ (52 ≤ hex_sprite_example_state.registers 6 →
      255 < hex_sprite_example_state.registers 6 * 5
      ∧ (set_register_i_hex_sprite_location hex_sprite_example_state 6).register_i
          ≠ hex_sprite_example_state.registers 6 * 5)) :=
  ⟨⟨by decide, by decide⟩,
    set_register_i_hex_sprite_location_spec hex_sprite_example_state 6
      (by decide) (by decide)⟩

/-! ## C5 — block register transfer under the auto-increment quirk -/

/-- The block store loop leaves every field except RAM and register I
untouched. -/
theorem store_registers_loop_frame (l : List Nat) (s : Interp) :
    (store_registers_loop l s).is_running = s.is_running
  ∧ (store_registers_loop l s).registers = s.registers
  ∧ (store_registers_loop l s).delay_timer = s.delay_timer
  ∧ (store_registers_loop l s).sound_timer = s.sound_timer
  ∧ (store_registers_loop l s).program_counter = s.program_counter
  ∧ (store_registers_loop l s).stack_pointer = s.stack_pointer
  ∧ (store_registers_loop l s).stack = s.stack
  ∧ (store_registers_loop l s).keyboard = s.keyboard
  ∧ (store_registers_loop l s).should_wait_for_key = s.should_wait_for_key
  ∧ (store_registers_loop l s).wait_for_key_register = s.wait_for_key_register
  ∧ (store_registers_loop l s).should_wait_for_display_refresh
      = s.should_wait_for_display_refresh
  ∧ (store_registers_loop l s).wait_for_display_refresh_data
      = s.wait_for_display_refresh_data
  ∧ (store_registers_loop l s).drawing_buffer = s.drawing_buffer
  ∧ (store_registers_loop l s).quirk_config = s.quirk_config := by
  induction l generalizing s with
  | nil => simp [store_registers_loop]
  | cons i rest ih =>
    cases hq : s.quirk_config.memory <;>
      simp [store_registers_loop, hq, handle_memory_increment_quirk, ih]

/-- The block load loop leaves every field except the register file and
register I untouched. -/
theorem load_registers_loop_frame (l : List Nat) (s : Interp) :
    (load_registers_loop l s).is_running = s.is_running
  ∧ (load_registers_loop l s).ram = s.ram
  ∧ (load_registers_loop l s).delay_timer = s.delay_timer
  ∧ (load_registers_loop l s).sound_timer = s.sound_timer
  ∧ (load_registers_loop l s).program_counter = s.program_counter
  ∧ (load_registers_loop l s).stack_pointer = s.stack_pointer
  ∧ (load_registers_loop l s).stack = s.stack
  ∧ (load_registers_loop l s).keyboard = s.keyboard
  ∧ (load_registers_loop l s).should_wait_for_key = s.should_wait_for_key
  ∧ (load_registers_loop l s).wait_for_key_register = s.wait_for_key_register
  ∧ (load_registers_loop l s).should_wait_for_display_refresh
      = s.should_wait_for_display_refresh
  ∧ (load_registers_loop l s).wait_for_display_refresh_data
      = s.wait_for_display_refresh_data
  ∧ (load_registers_loop l s).drawing_buffer = s.drawing_buffer
  ∧ (load_registers_loop l s).quirk_config = s.quirk_config := by
  induction l generalizing s with
  | nil => simp [load_registers_loop]
  | cons i rest ih =>
    cases hq : s.quirk_config.memory <;>
      simp [load_registers_loop, hq, handle_memory_increment_quirk, ih]

/-- Final RAM and index register of the block store loop with the increment
quirk enabled: the registers named by the consecutive loop indices are laid
out consecutively from the starting index register. -/
theorem store_registers_loop_inc (m : Nat) :
    ∀ (c : Nat) (s : Interp),
    s.quirk_config.memory = MemoryIncrementQuirk.Increment →
    (store_registers_loop (List.range' c m) s).register_i = s.register_i + m
  ∧ ∀ a, (store_registers_loop (List.range' c m) s).ram a
      = if s.register_i ≤ a ∧ a < s.register_i + m
        then s.registers (c + (a - s.register_i)) else s.ram a := by
  induction m with
  | zero =>
    intro c s _
    refine ⟨by simp [store_registers_loop], fun a => ?_⟩
    rw [if_neg (by omega)]
    simp [store_registers_loop]
  | succ m ih =>
    intro c s hq
    have hstep : store_registers_loop (List.range' c (m + 1)) s
        = store_registers_loop (List.range' (c + 1) m)
          { s with ram := Function.update s.ram (s.register_i + 0) (s.registers c)
                   register_i := s.register_i + 1 } := by
      rw [List.range'_succ]
      simp [store_registers_loop, hq, handle_memory_increment_quirk]
    obtain ⟨hI, hram⟩ := ih (c + 1)
      { s with ram := Function.update s.ram (s.register_i + 0) (s.registers c)
               register_i := s.register_i + 1 } hq
    refine ⟨by rw [hstep, hI]; dsimp only; omega, fun a => ?_⟩
    rw [hstep, hram a]
    simp only
    split_ifs with h1 h2 h2
    · congr 1
      omega
    · omega
    · have ha : a = s.register_i := by omega
      rw [ha, Nat.add_zero, Function.update_same]
      congr 1
      omega
    · rw [Function.update_noteq (by omega)]

/-- Final RAM and index register of the block store loop with the increment
quirk disabled: the registers named by the loop indices are written at the
index register plus their own index, and register I never moves. -/
theorem store_registers_loop_noinc (m : Nat) :
    ∀ (c : Nat) (s : Interp),
    s.quirk_config.memory = MemoryIncrementQuirk.NoIncrement →
    (store_registers_loop (List.range' c m) s).register_i = s.register_i
  ∧ ∀ a, (store_registers_loop (List.range' c m) s).ram a
      = if s.register_i + c ≤ a ∧ a < s.register_i + c + m
        then s.registers (a - s.register_i) else s.ram a := by
  induction m with
  | zero =>
    intro c s _
    refine ⟨by simp [store_registers_loop], fun a => ?_⟩
    rw [if_neg (by omega)]
    simp [store_registers_loop]
  | succ m ih =>
    intro c s hq
    have hstep : store_registers_loop (List.range' c (m + 1)) s
        = store_registers_loop (List.range' (c + 1) m)
          { s with ram := Function.update s.ram (s.register_i + c) (s.registers c) } := by
      rw [List.range'_succ]
      simp [store_registers_loop, hq, handle_memory_increment_quirk]
    obtain ⟨hI, hram⟩ := ih (c + 1)
      { s with ram := Function.update s.ram (s.register_i + c) (s.registers c) } hq
    refine ⟨by rw [hstep, hI], fun a => ?_⟩
    rw [hstep, hram a]
    simp only
    split_ifs with h1 h2 h2
    · rfl
    · omega
    · have ha : a = s.register_i + c := by omega
      rw [ha, Function.update_same]
      congr 1
      omega
    · rw [Function.update_noteq (by omega)]

/-- Final register file and index register of the block load loop with the
increment quirk enabled. -/
theorem load_registers_loop_inc (m : Nat) :
    ∀ (c : Nat) (s : Interp),
    s.quirk_config.memory = MemoryIncrementQuirk.Increment →
    (load_registers_loop (List.range' c m) s).register_i = s.register_i + m
  ∧ ∀ r, (load_registers_loop (List.range' c m) s).registers r
      = if c ≤ r ∧ r < c + m then s.ram (s.register_i + (r - c)) else s.registers r := by
  induction m with
  | zero =>
    intro c s _
    refine ⟨by simp [load_registers_loop], fun r => ?_⟩
    rw [if_neg (by omega)]
    simp [load_registers_loop]
  | succ m ih =>
    intro c s hq
    have hstep : load_registers_loop (List.range' c (m + 1)) s
        = load_registers_loop (List.range' (c + 1) m)
          { s with registers :=
                     Function.update s.registers c (s.ram (s.register_i + 0))
                   register_i := s.register_i + 1 } := by
      rw [List.range'_succ]
      simp [load_registers_loop, hq, handle_memory_increment_quirk]
    obtain ⟨hI, hreg⟩ := ih (c + 1)
      { s with registers := Function.update s.registers c (s.ram (s.register_i + 0))
               register_i := s.register_i + 1 } hq
    refine ⟨by rw [hstep, hI]; dsimp only; omega, fun r => ?_⟩
    rw [hstep, hreg r]
    simp only
    split_ifs with h1 h2 h2
    · congr 1
      omega
    · omega
    · have hr : r = c := by omega
      rw [hr, Function.update_same]
      congr 1
      omega
    · rw [Function.update_noteq (by omega)]

/-- Final register file and index register of the block load loop with the
increment quirk disabled. -/
theorem load_registers_loop_noinc (m : Nat) :
    ∀ (c : Nat) (s : Interp),
    s.quirk_config.memory = MemoryIncrementQuirk.NoIncrement →
    (load_registers_loop (List.range' c m) s).register_i = s.register_i
  ∧ ∀ r, (load_registers_loop (List.range' c m) s).registers r
      = if c ≤ r ∧ r < c + m then s.ram (s.register_i + r) else s.registers r := by
  induction m with
  | zero =>
    intro c s _
    refine ⟨by simp [load_registers_loop], fun r => ?_⟩
    rw [if_neg (by omega)]
    simp [load_registers_loop]
  | succ m ih =>
    intro c s hq
    have hstep : load_registers_loop (List.range' c (m + 1)) s
        = load_registers_loop (List.range' (c + 1) m)
          { s with registers :=
                     Function.update s.registers c (s.ram (s.register_i + c)) } := by
      rw [List.range'_succ]
      simp [load_registers_loop, hq, handle_memory_increment_quirk]
    obtain ⟨hI, hreg⟩ := ih (c + 1)
      { s with registers := Function.update s.registers c (s.ram (s.register_i + c)) } hq
    refine ⟨by rw [hstep, hI], fun r => ?_⟩
    rw [hstep, hreg r]
    simp only
    split_ifs with h1 h2 h2
    · rfl
    · omega
    · have hr : r = c := by omega
      rw [hr, Function.update_same]
    · rw [Function.update_noteq (by omega)]

/-- C5: for every machine state, block size N in 0..=15 and index register
with I+N inside memory, the block register store produces the same final
memory image whether the auto-increment quirk is enabled or disabled
(registers 0..N at addresses I..I+N, everything else untouched), the two
runs agree on every other machine field, and only the index register
differs: unchanged when the quirk is disabled, incremented once per
iteration (ending at I+N+1) when enabled; and the analogous equivalence for
the block register load. -/
theorem block_transfer_quirk_equiv (s : Interp) (n : Nat)
    (hn : n ≤ 15) (hI : s.register_i + n < 4096) :
    store_registers_quirk_equiv s n ∧ load_registers_quirk_equiv s n := by
  constructor
  · unfold store_registers_quirk_equiv
    simp only [store_registers, List.range_eq_range']
    obtain ⟨hII, hramI⟩ := store_registers_loop_inc (n + 1) 0
      { s with quirk_config :=
          { s.quirk_config with memory := MemoryIncrementQuirk.Increment } } rfl
    obtain ⟨hIN, hramN⟩ := store_registers_loop_noinc (n + 1) 0
      { s with quirk_config :=
          { s.quirk_config with memory := MemoryIncrementQuirk.NoIncrement } } rfl
    obtain ⟨g1, g2, g3, g4, g5, g6, g7, g8, g9, g10, g11, g12, g13, g14⟩ :=
      store_registers_loop_frame (List.range' 0 (n + 1))
        { s with quirk_config :=
            { s.quirk_config with memory := MemoryIncrementQuirk.Increment } }
    obtain ⟨k1, k2, k3, k4, k5, k6, k7, k8, k9, k10, k11, k12, k13, k14⟩ :=
      store_registers_loop_frame (List.range' 0 (n + 1))
        { s with quirk_config :=
            { s.quirk_config with memory := MemoryIncrementQuirk.NoIncrement } }
    dsimp only at hII hramI hIN hramN
    dsimp only at g1 g2 g3 g4 g5 g6 g7 g8 g9 g10 g11 g12 g13 g14
    dsimp only at k1 k2 k3 k4 k5 k6 k7 k8 k9 k10 k11 k12 k13 k14
    refine ⟨?_, ?_, ?_, hIN, hII, g2, k2, g5, k5, g6, k6, g7, k7, g3, k3, g4, k4,
      g8, k8, g9, k9, g10, k10, g11, k11, g12, k12, g13, k13, g1, k1⟩
    · funext a
      rw [hramI a, hramN a]
      simp only [Nat.add_zero, Nat.zero_add]
    · intro k hk
      have h := hramI (s.register_i + k)
      rw [if_pos (by omega)] at h
      rw [h]
      congr 1
      omega
    · intro a ha
      have h := hramI a
      rw [if_neg (by omega)] at h
      exact h
  · unfold load_registers_quirk_equiv
    simp only [load_registers, List.range_eq_range']
    obtain ⟨hII, hregI⟩ := load_registers_loop_inc (n + 1) 0
      { s with quirk_config :=
          { s.quirk_config with memory := MemoryIncrementQuirk.Increment } } rfl
    obtain ⟨hIN, hregN⟩ := load_registers_loop_noinc (n + 1) 0
      { s with quirk_config :=
          { s.quirk_config with memory := MemoryIncrementQuirk.NoIncrement } } rfl
    obtain ⟨g1, g2, g3, g4, g5, g6, g7, g8, g9, g10, g11, g12, g13, g14⟩ :=
      load_registers_loop_frame (List.range' 0 (n + 1))
        { s with quirk_config :=
            { s.quirk_config with memory := MemoryIncrementQuirk.Increment } }
    obtain ⟨k1, k2, k3, k4, k5, k6, k7, k8, k9, k10, k11, k12, k13, k14⟩ :=
      load_registers_loop_frame (List.range' 0 (n + 1))
        { s with quirk_config :=
            { s.quirk_config with memory := MemoryIncrementQuirk.NoIncrement } }
    dsimp only at hII hregI hIN hregN
    dsimp only at g1 g2 g3 g4 g5 g6 g7 g8 g9 g10 g11 g12 g13 g14
    dsimp only at k1 k2 k3 k4 k5 k6 k7 k8 k9 k10 k11 k12 k13 k14
    refine ⟨?_, ?_, ?_, g2, k2, hIN, hII, g5, k5, g6, k6, g7, k7, g3, k3, g4, k4,
      g8, k8, g9, k9, g10, k10, g11, k11, g12, k12, g13, k13, g1, k1⟩
    · funext r
      rw [hregI r, hregN r]
      simp only [Nat.add_zero, Nat.zero_add, Nat.sub_zero]
    · intro k hk
      have h := hregI k
      rw [if_pos (by omega)] at h
      rw [h]
      congr 1
    · intro r hr
      have h := hregI r
      rw [if_neg (by omega)] at h
      exact h

/-- C5 witness: the equivalence applied to a machine with index register
0x783 and block size 4 (registers V0..V3). -/
theorem block_transfer_quirk_equiv_witness :
    ((3 : Nat) ≤ 15 ∧ bcd_example_state.register_i + 3 < 4096)
  ∧ (store_registers_quirk_equiv bcd_example_state 3
    ∧ load_registers_quirk_equiv bcd_example_state 3) :=
  ⟨⟨by decide, by decide⟩,
    block_transfer_quirk_equiv bcd_example_state 3 (by decide) (by decide)⟩

/-! ## The draw loops only touch the register file and the drawing buffer -/

theorem agrees_except_draw_refl (s : Interp) : agrees_except_draw s s := by
  unfold agrees_except_draw
  exact ⟨rfl, rfl, rfl, rfl, rfl, rfl, rfl, rfl, rfl, rfl, rfl, rfl, rfl, rfl⟩

theorem agrees_except_draw_trans {s t u : Interp}
    (h1 : agrees_except_draw s t) (h2 : agrees_except_draw t u) :
    agrees_except_draw s u := by
  unfold agrees_except_draw at *
  obtain ⟨a1, a2, a3, a4, a5, a6, a7, a8, a9, a10, a11, a12, a13, a14⟩ := h1
  obtain ⟨b1, b2, b3, b4, b5, b6, b7, b8, b9, b10, b11, b12, b13, b14⟩ := h2
  exact ⟨b1.trans a1, b2.trans a2, b3.trans a3, b4.trans a4, b5.trans a5, b6.trans a6,
    b7.trans a7, b8.trans a8, b9.trans a9, b10.trans a10, b11.trans a11, b12.trans a12,
    b13.trans a13, b14.trans a14⟩

theorem draw_pixel_agrees (s : Interp) (buffer_y buffer_x sprite_byte j : Nat) :
    agrees_except_draw s (draw_pixel s buffer_y buffer_x sprite_byte j) := by
  unfold agrees_except_draw draw_pixel
  dsimp only
  split <;> simp

theorem draw_row_cols_agrees (base_x buffer_y sprite_byte : Nat) (l : List Nat) :
    ∀ s : Interp, agrees_except_draw s (draw_row_cols base_x buffer_y sprite_byte l s) := by
  induction l with
  | nil => intro s; simp only [draw_row_cols]; exact agrees_except_draw_refl s
  | cons j rest ih =>
    intro s
    simp only [draw_row_cols]
    cases hq : s.quirk_config.clipping
    · by_cases hle : 64 ≤ base_x + j
      · simp only [hle, if_true]
        exact ih s
      · simp only [hle, if_false]
        exact agrees_except_draw_trans
          (draw_pixel_agrees s buffer_y (base_x + j) sprite_byte j) (ih _)
    · exact agrees_except_draw_trans
        (draw_pixel_agrees s buffer_y ((base_x + j) % 64) sprite_byte j) (ih _)

theorem draw_rows_agrees (base_x base_y : Nat) (l : List Nat) :
    ∀ s : Interp, agrees_except_draw s (draw_rows base_x base_y l s) := by
  induction l with
  | nil => intro s; simp only [draw_rows]; exact agrees_except_draw_refl s
  | cons i rest ih =>
    intro s
    simp only [draw_rows]
    cases hq : s.quirk_config.clipping
    · by_cases hle : 32 ≤ base_y + i
      · simp only [hle, if_true]
        exact ih s
      · simp only [hle, if_false]
        exact agrees_except_draw_trans
          (draw_row_cols_agrees base_x (base_y + i) (s.ram (s.register_i + i))
            (List.range 8) s) (ih _)
    · exact agrees_except_draw_trans
        (draw_row_cols_agrees base_x ((base_y + i) % 32) (s.ram (s.register_i + i))
          (List.range 8) s) (ih _)

theorem complete_draw_agrees (s : Interp) (x y len : Nat) :
    agrees_except_draw s (complete_draw s x y len) := by
  unfold complete_draw
  refine agrees_except_draw_trans (t := { s with
      registers := Function.update s.registers 0xF 0 }) ?_ (draw_rows_agrees _ _ _ _)
  unfold agrees_except_draw
  simp

/-! ## C7 — the waiting-for-key suspension -/

/-- A key press never moves the program counter. -/
theorem handle_key_press_pc (s : Interp) (kc : Keycode) :
    (handle_key_press s kc).program_counter = s.program_counter := by
  cases hmap : get_key_mapping kc <;> simp [handle_key_press, hmap, apply_ite]

/-- A key release never moves the program counter. -/
theorem handle_key_release_pc (s : Interp) (kc : Keycode) :
    (handle_key_release s kc).program_counter = s.program_counter := by
  cases hmap : get_key_mapping kc <;> simp [handle_key_release, hmap, apply_ite]

/-- A frame tick never moves the program counter. -/
theorem handle_frame_pc (s : Interp) :
    (handle_frame s).program_counter = s.program_counter := by
  unfold handle_frame
  dsimp only
  split
  · rfl
  split
  · obtain ⟨-, -, -, -, -, hpc, -⟩ := complete_draw_agrees (handle_timers s)
      (handle_timers s).wait_for_display_refresh_data.1
      (handle_timers s).wait_for_display_refresh_data.2.1
      (handle_timers s).wait_for_display_refresh_data.2.2
    simpa [handle_timers] using hpc
  · simp [handle_timers]

/-- A cycle taken while the machine waits for a key leaves the whole state
untouched. -/
theorem handle_cycle_waiting (rnd : Nat) (s : Interp)
    (h : s.should_wait_for_key = true) : handle_cycle rnd s = some s := by
  unfold handle_cycle
  rw [if_pos (Or.inr (Or.inl h))]

/-- While every intermediate state of an event sequence still waits for a
key, the program counter never moves. -/
theorem run_wait_pc_frozen (es : List Event) : ∀ s t : Interp,
    s.should_wait_for_key = true →
    (∀ m, m ≤ es.length → ∀ u, run s (List.take m es) = some u →
      u.should_wait_for_key = true) →
    run s es = some t → t.program_counter = s.program_counter := by
  induction es with
  | nil =>
    intro s t _ _ hrun
    simp only [run, Option.some.injEq] at hrun
    rw [← hrun]
  | cons e es ih =>
    intro s t hwait hpre hrun
    simp only [run] at hrun
    cases hstep : step s e with
    | none => rw [hstep] at hrun; exact absurd hrun (by simp)
    | some u =>
      rw [hstep] at hrun
      have hu_wait : u.should_wait_for_key = true := by
        refine hpre 1 (by simp) u ?_
        simp only [List.take_succ_cons, List.take_zero, run, hstep]
      have hpc : u.program_counter = s.program_counter := by
        cases e with
        | cycle rnd =>
          have := handle_cycle_waiting rnd s hwait
          simp only [step] at hstep
          rw [this] at hstep
          cases hstep
          rfl
        | frame =>
          simp only [step, Option.some.injEq] at hstep
          rw [← hstep]
          exact handle_frame_pc s
        | key_press kc =>
          simp only [step, Option.some.injEq] at hstep
          rw [← hstep]
          exact handle_key_press_pc s kc
        | key_release kc =>
          simp only [step, Option.some.injEq] at hstep
          rw [← hstep]
          exact handle_key_release_pc s kc
      have hpre' : ∀ m, m ≤ es.length → ∀ v, run u (List.take m es) = some v →
          v.should_wait_for_key = true := by
        intro m hm v hv
        refine hpre (m + 1) (by simp; omega) v ?_
        simp only [List.take_succ_cons, run, hstep]
        exact hv
      rw [ih u t hu_wait hpre' hrun]
      exact hpc

/-- C7 counterexample: the machine loads the one-instruction program 0xF50A
(load key press into V5) and executes one cycle, entering the key wait with
the program counter at 0x202.  No key is ever pressed, yet releasing
physical key X (logical key 0, which matches the reset contents of V5) lifts
the suspension, and the following cycle moves the program counter — the
release did not match any key pressed while waiting, because there was
none. -/
theorem load_key_press_wait_cex :
    Option.map Interp.should_wait_for_key (run key_wait_cex_state [Event.cycle 0])
      = some true
  ∧ Option.map Interp.program_counter (run key_wait_cex_state [Event.cycle 0])
      = some 0x202
  ∧ Option.map Interp.program_counter
      (run key_wait_cex_state
        [Event.cycle 0, Event.key_release Keycode.X, Event.cycle 0])
      = some 0x0 :=
  ⟨by decide, by decide, by decide⟩

/-- C7 (amended): while the machine waits for a key, a cycle is a complete
no-op (so the program counter and the fetch/decode/execute step are frozen,
and stay frozen along any event sequence whose intermediate states all still
wait); a key press while waiting always latches its logical key into the
destination register, before any release, without lifting the wait; and a
key release lifts the wait exactly when its key equals the current contents
of the destination register — the key most recently pressed while waiting
when there was one, the stale prior contents of that register when no key
was pressed while waiting. -/
theorem load_key_press_wait_spec (s : Interp) (h : s.should_wait_for_key = true) :
    (∀ rnd, handle_cycle rnd s = some s)
  ∧ (∀ kc key, get_key_mapping kc = some key →
      (handle_key_press s kc).registers s.wait_for_key_register = key
      ∧ (handle_key_press s kc).should_wait_for_key = true
      ∧ (handle_key_press s kc).program_counter = s.program_counter)
  ∧ (∀ kc key, get_key_mapping kc = some key →
      ((handle_key_release s kc).should_wait_for_key = false
        ↔ s.registers s.wait_for_key_register = key)
      ∧ (handle_key_release s kc).program_counter = s.program_counter)
  ∧ (∀ es : List Event, ∀ t : Interp,
      (∀ m, m ≤ es.length → ∀ u, run s (List.take m es) = some u →
        u.should_wait_for_key = true) →
      run s es = some t → t.program_counter = s.program_counter) := by
  refine ⟨fun rnd => handle_cycle_waiting rnd s h, ?_, ?_, ?_⟩
  · intro kc key hmap
    refine ⟨?_, ?_, handle_key_press_pc s kc⟩ <;>
      simp [handle_key_press, hmap, h, Function.update_same]
  · intro kc key hmap
    refine ⟨?_, handle_key_release_pc s kc⟩
    by_cases hc : s.registers s.wait_for_key_register = key <;>
      simp [handle_key_release, hmap, h, hc]
  · intro es t hpre hrun
    exact run_wait_pc_frozen es s t h hpre hrun

/-- C7 witness: the amended theorem applied to a concrete machine waiting on
destination register V5. -/
theorem load_key_press_wait_spec_witness :
    (key_waiting_state.should_wait_for_key = true)
  ∧ ((∀ rnd, handle_cycle rnd key_waiting_state = some key_waiting_state)
    ∧ (∀ kc key, get_key_mapping kc = some key →
        (handle_key_press key_waiting_state kc).registers
            key_waiting_state.wait_for_key_register = key
        ∧ (handle_key_press key_waiting_state kc).should_wait_for_key = true
        ∧ (handle_key_press key_waiting_state kc).program_counter
            = key_waiting_state.program_counter)
    ∧ (∀ kc key, get_key_mapping kc = some key →
        ((handle_key_release key_waiting_state kc).should_wait_for_key = false
          ↔ key_waiting_state.registers key_waiting_state.wait_for_key_register = key)
        ∧ (handle_key_release key_waiting_state kc).program_counter
            = key_waiting_state.program_counter)
    ∧ (∀ es : List Event, ∀ t : Interp,
        (∀ m, m ≤ es.length → ∀ u, run key_waiting_state (List.take m es) = some u →
          u.should_wait_for_key = true) →
        run key_waiting_state es = some t →
        t.program_counter = key_waiting_state.program_counter)) :=
  ⟨by decide, load_key_press_wait_spec key_waiting_state (by decide)⟩

/-! ## C9 — at most one suspension is ever active -/

theorem handle_reset_quirk_swk (s : Interp) :
    (handle_reset_quirk s).should_wait_for_key = s.should_wait_for_key := by
  cases hq : s.quirk_config.reset_vf <;> simp [handle_reset_quirk, hq]

theorem handle_reset_quirk_swd (s : Interp) :
    (handle_reset_quirk s).should_wait_for_display_refresh
      = s.should_wait_for_display_refresh := by
  cases hq : s.quirk_config.reset_vf <;> simp [handle_reset_quirk, hq]

theorem complete_draw_swk (s : Interp) (x y len : Nat) :
    (complete_draw s x y len).should_wait_for_key = s.should_wait_for_key := by
  obtain ⟨-, -, -, -, -, -, -, -, -, h, -⟩ := complete_draw_agrees s x y len
  exact h

theorem complete_draw_swd (s : Interp) (x y len : Nat) :
    (complete_draw s x y len).should_wait_for_display_refresh
      = s.should_wait_for_display_refresh := by
  obtain ⟨-, -, -, -, -, -, -, -, -, -, -, h, -⟩ := complete_draw_agrees s x y len
  exact h

theorem store_registers_loop_swk (l : List Nat) (s : Interp) :
    (store_registers_loop l s).should_wait_for_key = s.should_wait_for_key := by
  obtain ⟨-, -, -, -, -, -, -, -, h, -⟩ := store_registers_loop_frame l s
  exact h

theorem store_registers_loop_swd (l : List Nat) (s : Interp) :
    (store_registers_loop l s).should_wait_for_display_refresh
      = s.should_wait_for_display_refresh := by
  obtain ⟨-, -, -, -, -, -, -, -, -, -, h, -⟩ := store_registers_loop_frame l s
  exact h

theorem load_registers_loop_swk (l : List Nat) (s : Interp) :
    (load_registers_loop l s).should_wait_for_key = s.should_wait_for_key := by
  obtain ⟨-, -, -, -, -, -, -, -, h, -⟩ := load_registers_loop_frame l s
  exact h

theorem load_registers_loop_swd (l : List Nat) (s : Interp) :
    (load_registers_loop l s).should_wait_for_display_refresh
      = s.should_wait_for_display_refresh := by
  obtain ⟨-, -, -, -, -, -, -, -, -, -, h, -⟩ := load_registers_loop_frame l s
  exact h

/-- Executed from an unsuspended state, a single opcode activates at most one
of the two suspensions. -/
theorem handle_opcode_suspension (rnd : Nat) (s : Interp) (op : Opcode)
    (hk : s.should_wait_for_key = false)
    (hd : s.should_wait_for_display_refresh = false) :
    ¬((handle_opcode rnd s op).should_wait_for_key = true
      ∧ (handle_opcode rnd s op).should_wait_for_display_refresh = true) := by
  cases op <;>
    simp [handle_opcode, clear_screen, return_from_subroutine, jump_addr, call_addr,
      skip_register_equals_value, skip_register_not_equals_value, skip_registers_equal,
      skip_registers_not_equal, load_value, add_value, load_register_value,
      or_registers, and_registers, xor_registers, handle_reset_quirk_swk,
      handle_reset_quirk_swd, random, load_register_i, jump_address_v0,
      load_delay_timer, set_delay_timer, set_sound_timer, add_register_i,
      add_registers, bounded_subtraction, bit_shift_right, bit_shift_left,
      binary_coded_decimal, set_register_i_hex_sprite_location, skip_key_pressed,
      skip_key_not_pressed, load_key_press, draw,
      store_registers, store_registers_loop_swk, store_registers_loop_swd,
      load_registers, load_registers_loop_swk, load_registers_loop_swd,
      complete_draw_swk, complete_draw_swd, apply_ite, hk, hd]
  case Draw x y len =>
    cases hdw : s.quirk_config.display_wait <;>
      simp [hdw, draw, complete_draw_swk, complete_draw_swd, hk, hd]

/-- A single driving event preserves the at-most-one-suspension
invariant. -/
theorem step_suspension (s : Interp) (e : Event) (t : Interp)
    (hinv : ¬(s.should_wait_for_key = true
      ∧ s.should_wait_for_display_refresh = true))
    (hstep : step s e = some t) :
    ¬(t.should_wait_for_key = true ∧ t.should_wait_for_display_refresh = true) := by
  cases e with
  | cycle rnd =>
    simp only [step, handle_cycle] at hstep
    by_cases hg : s.is_running = false ∨ s.should_wait_for_key = true
        ∨ s.should_wait_for_display_refresh = true
    · rw [if_pos hg] at hstep
      cases hstep
      exact hinv
    · rw [if_neg hg] at hstep
      push_neg at hg
      have hk : s.should_wait_for_key = false := by
        cases h : s.should_wait_for_key
        · rfl
        · exact absurd h hg.2.1
      have hd : s.should_wait_for_display_refresh = false := by
        cases h : s.should_wait_for_display_refresh
        · rfl
        · exact absurd h hg.2.2
      cases hop : get_opcode (s.ram s.program_counter) (s.ram (s.program_counter + 1)) with
      | panicked => rw [hop] at hstep; exact absurd hstep (by simp)
      | instruction op =>
        rw [hop] at hstep
        simp only [Option.some.injEq] at hstep
        rw [← hstep]
        exact handle_opcode_suspension rnd _ op hk hd
  | frame =>
    simp only [step, Option.some.injEq] at hstep
    rw [← hstep]
    unfold handle_frame
    dsimp only
    split
    · exact hinv
    split
    · intro hc
      simp at hc
    · simpa [handle_timers] using hinv
  | key_press kc =>
    simp only [step, Option.some.injEq] at hstep
    rw [← hstep]
    cases hmap : get_key_mapping kc with
    | none => simpa [handle_key_press, hmap] using hinv
    | some key =>
      by_cases hw : s.should_wait_for_key = true <;>
        simpa [handle_key_press, hmap, hw] using hinv
  | key_release kc =>
    simp only [step, Option.some.injEq] at hstep
    rw [← hstep]
    cases hmap : get_key_mapping kc with
    | none => simpa [handle_key_release, hmap] using hinv
    | some key =>
      by_cases hw : s.should_wait_for_key = true
          ∧ s.registers s.wait_for_key_register = key
      · simp [handle_key_release, hmap, hw]
      · simpa [handle_key_release, hmap, hw] using hinv

/-- The at-most-one-suspension invariant is preserved along any event
sequence. -/
theorem run_suspension (es : List Event) : ∀ s t : Interp,
    ¬(s.should_wait_for_key = true ∧ s.should_wait_for_display_refresh = true) →
    run s es = some t →
    ¬(t.should_wait_for_key = true ∧ t.should_wait_for_display_refresh = true) := by
  induction es with
  | nil =>
    intro s t hinv hrun
    simp only [run, Option.some.injEq] at hrun
    rw [← hrun]
    exact hinv
  | cons e es ih =>
    intro s t hinv hrun
    simp only [run] at hrun
    cases hstep : step s e with
    | none => rw [hstep] at hrun; exact absurd hrun (by simp)
    | some u =>
      rw [hstep] at hrun
      exact ih u t (step_suspension s e u hinv hstep) hrun

/-- C9: in every machine state reachable from a freshly loaded machine by
any sequence of cycles, frame ticks and key press/release events, at most
one suspension is active — the waiting-for-key flag and the
waiting-for-display-refresh flag are never both set. -/
theorem at_most_one_suspension_invariant (q : QuirkConfig) (game_data : List Nat)
    (es : List Event) (t : Interp)
    (hrun : run (load_game (new_with_sdl q) game_data) es = some t) :
    ¬(t.should_wait_for_key = true ∧ t.should_wait_for_display_refresh = true) := by
  refine run_suspension es (load_game (new_with_sdl q) game_data) t ?_ hrun
  intro hc
  simp [load_game] at hc

/-- C9 witness: the invariant applied to the freshly loaded empty program
and the empty event sequence. -/
theorem at_most_one_suspension_invariant_witness :
    run (load_game (new_with_sdl QuirkConfig.new) []) []
        = some (load_game (new_with_sdl QuirkConfig.new) [])
  ∧ ¬((load_game (new_with_sdl QuirkConfig.new) []).should_wait_for_key = true
      ∧ (load_game (new_with_sdl QuirkConfig.new)
          []).should_wait_for_display_refresh = true) :=
  ⟨rfl, at_most_one_suspension_invariant QuirkConfig.new [] []
    (load_game (new_with_sdl QuirkConfig.new) []) rfl⟩

/-! ## C6 — sprite clipping versus wrapping -/

/-- Effect of one pixel of a sprite row on the drawing buffer and the
register file: the target pixel is XORed with the sprite bit, and register F
is raised exactly on a collision. -/
theorem draw_pixel_spec (s : Interp) (buffer_y buffer_x sprite_byte j : Nat) :
    ((draw_pixel s buffer_y buffer_x sprite_byte j).drawing_buffer
        = Function.update s.drawing_buffer (buffer_y * 64 + buffer_x)
            (Bool.xor (s.drawing_buffer (buffer_y * 64 + buffer_x))
              (bit_of sprite_byte j == 1)))
  ∧ ((draw_pixel s buffer_y buffer_x sprite_byte j).registers
        = if s.drawing_buffer (buffer_y * 64 + buffer_x) = true
              ∧ bit_of sprite_byte j = 1
          then Function.update s.registers 0xF 1 else s.registers) := by
  unfold draw_pixel
  dsimp only
  split <;> simp_all

/-- Characterization of the inner column loop under the clip quirk, for a
duplicate-free list of column offsets: pixels not targeted by an in-range
column are untouched, each in-range column XORs its pixel, and register F is
raised exactly when some in-range column collides. -/
theorem draw_row_cols_clip (base_x buffer_y sprite_byte : Nat) (l : List Nat) :
    ∀ s : Interp,
    s.quirk_config.clipping = ClippingQuirk.Clip → l.Nodup →
    ((∀ p, (∀ j ∈ l, base_x + j < 64 → p ≠ buffer_y * 64 + (base_x + j)) →
        (draw_row_cols base_x buffer_y sprite_byte l s).drawing_buffer p
          = s.drawing_buffer p)
  ∧ (∀ j ∈ l, base_x + j < 64 →
      (draw_row_cols base_x buffer_y sprite_byte l s).drawing_buffer
          (buffer_y * 64 + (base_x + j))
        = Bool.xor (s.drawing_buffer (buffer_y * 64 + (base_x + j)))
            (bit_of sprite_byte j == 1))
  ∧ ((draw_row_cols base_x buffer_y sprite_byte l s).registers
      = if ∃ j ∈ l, base_x + j < 64 ∧ bit_of sprite_byte j = 1
            ∧ s.drawing_buffer (buffer_y * 64 + (base_x + j)) = true
        then Function.update s.registers 0xF 1 else s.registers)) := by
  induction l with
  | nil =>
    intro s _ _
    refine ⟨fun p _ => rfl, fun j hj => absurd hj (List.not_mem_nil j), ?_⟩
    rw [if_neg (by simp)]
    rfl
  | cons j0 rest ih =>
    intro s hq hnd
    have hnd0 : j0 ∉ rest := (List.nodup_cons.mp hnd).1
    have hndr : rest.Nodup := (List.nodup_cons.mp hnd).2
    by_cases hin : 64 ≤ base_x + j0
    · -- the head column falls off the right edge and is skipped
      have hstep : draw_row_cols base_x buffer_y sprite_byte (j0 :: rest) s
          = draw_row_cols base_x buffer_y sprite_byte rest s := by
        simp only [draw_row_cols, hq]
        rw [if_pos hin]
      obtain ⟨ih1, ih2, ih3⟩ := ih s hq hndr
      rw [hstep]
      refine ⟨?_, ?_, ?_⟩
      · intro p hp
        exact ih1 p (fun j hj hjr => hp j (List.mem_cons_of_mem j0 hj) hjr)
      · intro j hj hjr
        rcases List.mem_cons.mp hj with hj0 | hjrest
        · omega
        · exact ih2 j hjrest hjr
      · rw [ih3]
        congr 1
        simp only [eq_iff_iff]
        constructor
        · rintro ⟨j, hj, hjr, hbit, hbuf⟩
          exact ⟨j, List.mem_cons_of_mem j0 hj, hjr, hbit, hbuf⟩
        · rintro ⟨j, hj, hjr, hbit, hbuf⟩
          rcases List.mem_cons.mp hj with hj0 | hjrest
          · omega
          · exact ⟨j, hjrest, hjr, hbit, hbuf⟩
    · -- the head column is drawn
      have hstep : draw_row_cols base_x buffer_y sprite_byte (j0 :: rest) s
          = draw_row_cols base_x buffer_y sprite_byte rest
              (draw_pixel s buffer_y (base_x + j0) sprite_byte j0) := by
        simp only [draw_row_cols, hq]
        rw [if_neg hin]
      obtain ⟨hbuf0, hreg0⟩ := draw_pixel_spec s buffer_y (base_x + j0) sprite_byte j0
      obtain ⟨-, -, -, -, -, -, -, -, -, -, -, -, -, hqq⟩ :=
        draw_pixel_agrees s buffer_y (base_x + j0) sprite_byte j0
      obtain ⟨ih1, ih2, ih3⟩ := ih (draw_pixel s buffer_y (base_x + j0) sprite_byte j0)
        (by rw [hqq]; exact hq) hndr
      rw [hstep]
      have hbufr : ∀ j ∈ rest, base_x + j < 64 →
          (draw_pixel s buffer_y (base_x + j0) sprite_byte j0).drawing_buffer
              (buffer_y * 64 + (base_x + j))
            = s.drawing_buffer (buffer_y * 64 + (base_x + j)) := by
        intro j hj hjr
        rw [hbuf0]
        refine Function.update_noteq (fun hcontra => ?_) _ _
        have : j = j0 := by omega
        exact hnd0 (this ▸ hj)
      refine ⟨?_, ?_, ?_⟩
      · intro p hp
        rw [ih1 p (fun j hj hjr => hp j (List.mem_cons_of_mem j0 hj) hjr), hbuf0]
        exact Function.update_noteq (hp j0 (List.mem_cons_self j0 rest) (by omega)) _ _
      · intro j hj hjr
        rcases List.mem_cons.mp hj with hj0 | hjrest
        · subst hj0
          rw [ih1 (buffer_y * 64 + (base_x + j)) ?_, hbuf0, Function.update_same]
          intro j1 hj1 hj1r
          have : j1 ≠ j := fun hc => hnd0 (hc ▸ hj1)
          omega
        · rw [ih2 j hjrest hjr, hbufr j hjrest hjr]
      · rw [ih3, hreg0]
        have hcond : (∃ j ∈ rest, base_x + j < 64 ∧ bit_of sprite_byte j = 1
              ∧ (draw_pixel s buffer_y (base_x + j0) sprite_byte j0).drawing_buffer
                  (buffer_y * 64 + (base_x + j)) = true)
            ↔ (∃ j ∈ rest, base_x + j < 64 ∧ bit_of sprite_byte j = 1
              ∧ s.drawing_buffer (buffer_y * 64 + (base_x + j)) = true) := by
          constructor
          · rintro ⟨j, hj, hjr, hbit, hb⟩
            exact ⟨j, hj, hjr, hbit, (hbufr j hj hjr) ▸ hb⟩
          · rintro ⟨j, hj, hjr, hbit, hb⟩
            exact ⟨j, hj, hjr, hbit, (hbufr j hj hjr).symm ▸ hb⟩
        by_cases hhit : s.drawing_buffer (buffer_y * 64 + (base_x + j0)) = true
            ∧ bit_of sprite_byte j0 = 1
        · rw [if_pos hhit]
          have hl : ∃ j ∈ j0 :: rest, base_x + j < 64 ∧ bit_of sprite_byte j = 1
              ∧ s.drawing_buffer (buffer_y * 64 + (base_x + j)) = true :=
            ⟨j0, List.mem_cons_self j0 rest, by omega, hhit.2, hhit.1⟩
          rw [if_pos hl]
          by_cases hrest : ∃ j ∈ rest, base_x + j < 64 ∧ bit_of sprite_byte j = 1
              ∧ (draw_pixel s buffer_y (base_x + j0) sprite_byte j0).drawing_buffer
                  (buffer_y * 64 + (base_x + j)) = true
          · rw [if_pos hrest, Function.update_idem]
          · rw [if_neg hrest]
        · rw [if_neg hhit]
          have hiff : (∃ j ∈ rest, base_x + j < 64 ∧ bit_of sprite_byte j = 1
                ∧ (draw_pixel s buffer_y (base_x + j0) sprite_byte j0).drawing_buffer
                    (buffer_y * 64 + (base_x + j)) = true)
              ↔ (∃ j ∈ j0 :: rest, base_x + j < 64 ∧ bit_of sprite_byte j = 1
                ∧ s.drawing_buffer (buffer_y * 64 + (base_x + j)) = true) := by
            rw [hcond]
            constructor
            · rintro ⟨j, hj, hjr, hbit, hb⟩
              exact ⟨j, List.mem_cons_of_mem j0 hj, hjr, hbit, hb⟩
            · rintro ⟨j, hj, hjr, hbit, hb⟩
              rcases List.mem_cons.mp hj with hj0 | hjrest
              · subst hj0
                exact absurd ⟨hb, hbit⟩ hhit
              · exact ⟨j, hjrest, hjr, hbit, hb⟩
          by_cases hrest : ∃ j ∈ rest, base_x + j < 64 ∧ bit_of sprite_byte j = 1
              ∧ (draw_pixel s buffer_y (base_x + j0) sprite_byte j0).drawing_buffer
                  (buffer_y * 64 + (base_x + j)) = true
          · rw [if_pos hrest, if_pos (hiff.mp hrest)]
          · rw [if_neg hrest, if_neg (fun hc => hrest (hiff.mpr hc))]

/-- Characterization of the inner column loop under the wrap quirk, for a
duplicate-free list of column offsets below 64: every column is drawn at its
x coordinate reduced modulo 64, pixels not so targeted are untouched, and
register F is raised exactly when some column collides. -/
theorem draw_row_cols_wrap (base_x buffer_y sprite_byte : Nat) (l : List Nat) :
    ∀ s : Interp,
    s.quirk_config.clipping = ClippingQuirk.Wrap → l.Nodup →
    (∀ j ∈ l, j < 64) →
    ((∀ p, (∀ j ∈ l, p ≠ buffer_y * 64 + (base_x + j) % 64) →
        (draw_row_cols base_x buffer_y sprite_byte l s).drawing_buffer p
          = s.drawing_buffer p)
  ∧ (∀ j ∈ l,
      (draw_row_cols base_x buffer_y sprite_byte l s).drawing_buffer
          (buffer_y * 64 + (base_x + j) % 64)
        = Bool.xor (s.drawing_buffer (buffer_y * 64 + (base_x + j) % 64))
            (bit_of sprite_byte j == 1))
  ∧ ((draw_row_cols base_x buffer_y sprite_byte l s).registers
      = if ∃ j ∈ l, bit_of sprite_byte j = 1
            ∧ s.drawing_buffer (buffer_y * 64 + (base_x + j) % 64) = true
        then Function.update s.registers 0xF 1 else s.registers)) := by
  induction l with
  | nil =>
    intro s _ _ _
    refine ⟨fun p _ => rfl, fun j hj => absurd hj (List.not_mem_nil j), ?_⟩
    rw [if_neg (by simp)]
    rfl
  | cons j0 rest ih =>
    intro s hq hnd hlt
    have hnd0 : j0 ∉ rest := (List.nodup_cons.mp hnd).1
    have hndr : rest.Nodup := (List.nodup_cons.mp hnd).2
    have hlt0 : j0 < 64 := hlt j0 (List.mem_cons_self j0 rest)
    have hltr : ∀ j ∈ rest, j < 64 := fun j hj => hlt j (List.mem_cons_of_mem j0 hj)
    have hstep : draw_row_cols base_x buffer_y sprite_byte (j0 :: rest) s
        = draw_row_cols base_x buffer_y sprite_byte rest
            (draw_pixel s buffer_y ((base_x + j0) % 64) sprite_byte j0) := by
      simp only [draw_row_cols, hq]
    obtain ⟨hbuf0, hreg0⟩ :=
      draw_pixel_spec s buffer_y ((base_x + j0) % 64) sprite_byte j0
    obtain ⟨-, -, -, -, -, -, -, -, -, -, -, -, -, hqq⟩ :=
      draw_pixel_agrees s buffer_y ((base_x + j0) % 64) sprite_byte j0
    obtain ⟨ih1, ih2, ih3⟩ :=
      ih (draw_pixel s buffer_y ((base_x + j0) % 64) sprite_byte j0)
        (by rw [hqq]; exact hq) hndr hltr
    rw [hstep]
    have hne : ∀ j ∈ rest,
        buffer_y * 64 + (base_x + j) % 64 ≠ buffer_y * 64 + (base_x + j0) % 64 := by
      intro j hj hcontra
      have hj64 : j < 64 := hltr j hj
      have hjne : j ≠ j0 := fun hc => hnd0 (hc ▸ hj)
      omega
    have hbufr : ∀ j ∈ rest,
        (draw_pixel s buffer_y ((base_x + j0) % 64) sprite_byte j0).drawing_buffer
            (buffer_y * 64 + (base_x + j) % 64)
          = s.drawing_buffer (buffer_y * 64 + (base_x + j) % 64) := by
      intro j hj
      rw [hbuf0]
      exact Function.update_noteq (hne j hj) _ _
    refine ⟨?_, ?_, ?_⟩
    · intro p hp
      rw [ih1 p (fun j hj => hp j (List.mem_cons_of_mem j0 hj)), hbuf0]
      exact Function.update_noteq (hp j0 (List.mem_cons_self j0 rest)) _ _
    · intro j hj
      rcases List.mem_cons.mp hj with hj0 | hjrest
      · subst hj0
        rw [ih1 (buffer_y * 64 + (base_x + j) % 64) ?_, hbuf0, Function.update_same]
        intro j1 hj1
        exact (hne j1 hj1).symm
      · rw [ih2 j hjrest, hbufr j hjrest]
    · rw [ih3, hreg0]
      have hcond : (∃ j ∈ rest, bit_of sprite_byte j = 1
            ∧ (draw_pixel s buffer_y ((base_x + j0) % 64) sprite_byte j0).drawing_buffer
                (buffer_y * 64 + (base_x + j) % 64) = true)
          ↔ (∃ j ∈ rest, bit_of sprite_byte j = 1
            ∧ s.drawing_buffer (buffer_y * 64 + (base_x + j) % 64) = true) := by
        constructor
        · rintro ⟨j, hj, hbit, hb⟩
          exact ⟨j, hj, hbit, (hbufr j hj) ▸ hb⟩
        · rintro ⟨j, hj, hbit, hb⟩
          exact ⟨j, hj, hbit, (hbufr j hj).symm ▸ hb⟩
      by_cases hhit : s.drawing_buffer (buffer_y * 64 + (base_x + j0) % 64) = true
          ∧ bit_of sprite_byte j0 = 1
      · rw [if_pos hhit]
        have hl : ∃ j ∈ j0 :: rest, bit_of sprite_byte j = 1
            ∧ s.drawing_buffer (buffer_y * 64 + (base_x + j) % 64) = true :=
          ⟨j0, List.mem_cons_self j0 rest, hhit.2, hhit.1⟩
        rw [if_pos hl]
        by_cases hrest : ∃ j ∈ rest, bit_of sprite_byte j = 1
            ∧ (draw_pixel s buffer_y ((base_x + j0) % 64) sprite_byte j0).drawing_buffer
                (buffer_y * 64 + (base_x + j) % 64) = true
        · rw [if_pos hrest, Function.update_idem]
        · rw [if_neg hrest]
      · rw [if_neg hhit]
        have hiff : (∃ j ∈ rest, bit_of sprite_byte j = 1
              ∧ (draw_pixel s buffer_y ((base_x + j0) % 64) sprite_byte j0).drawing_buffer
                  (buffer_y * 64 + (base_x + j) % 64) = true)
            ↔ (∃ j ∈ j0 :: rest, bit_of sprite_byte j = 1
              ∧ s.drawing_buffer (buffer_y * 64 + (base_x + j) % 64) = true) := by
          rw [hcond]
          constructor
          · rintro ⟨j, hj, hbit, hb⟩
            exact ⟨j, List.mem_cons_of_mem j0 hj, hbit, hb⟩
          · rintro ⟨j, hj, hbit, hb⟩
            rcases List.mem_cons.mp hj with hj0 | hjrest
            · subst hj0
              exact absurd ⟨hb, hbit⟩ hhit
            · exact ⟨j, hjrest, hbit, hb⟩
        by_cases hrest : ∃ j ∈ rest, bit_of sprite_byte j = 1
            ∧ (draw_pixel s buffer_y ((base_x + j0) % 64) sprite_byte j0).drawing_buffer
                (buffer_y * 64 + (base_x + j) % 64) = true
        · rw [if_pos hrest, if_pos (hiff.mp hrest)]
        · rw [if_neg hrest, if_neg (fun hc => hrest (hiff.mpr hc))]

/-- Characterization of the outer row loop under the clip quirk, for a
duplicate-free list of row offsets: rows falling off the bottom edge and
columns falling off the right edge are skipped, every other sprite bit XORs
its pixel, untargeted pixels are untouched, and register F is raised exactly
when some in-range bit collides. -/
theorem draw_rows_clip (base_x base_y : Nat) (l : List Nat) : ∀ s : Interp,
    s.quirk_config.clipping = ClippingQuirk.Clip → l.Nodup →
    ((∀ p, (∀ i ∈ l, base_y + i < 32 → ∀ j, j < 8 → base_x + j < 64 →
        p ≠ (base_y + i) * 64 + (base_x + j)) →
        (draw_rows base_x base_y l s).drawing_buffer p = s.drawing_buffer p)
  ∧ (∀ i ∈ l, base_y + i < 32 → ∀ j, j < 8 → base_x + j < 64 →
      (draw_rows base_x base_y l s).drawing_buffer ((base_y + i) * 64 + (base_x + j))
        = Bool.xor (s.drawing_buffer ((base_y + i) * 64 + (base_x + j)))
            (bit_of (s.ram (s.register_i + i)) j == 1))
  ∧ ((draw_rows base_x base_y l s).registers
      = if ∃ i ∈ l, base_y + i < 32 ∧ ∃ j ∈ List.range 8, base_x + j < 64
            ∧ bit_of (s.ram (s.register_i + i)) j = 1
            ∧ s.drawing_buffer ((base_y + i) * 64 + (base_x + j)) = true
        then Function.update s.registers 0xF 1 else s.registers)) := by
  induction l with
  | nil =>
    intro s _ _
    refine ⟨fun p _ => rfl, fun i hi => absurd hi (List.not_mem_nil i), ?_⟩
    rw [if_neg (by simp)]
    rfl
  | cons i0 rest ih =>
    intro s hq hnd
    have hnd0 : i0 ∉ rest := (List.nodup_cons.mp hnd).1
    have hndr : rest.Nodup := (List.nodup_cons.mp hnd).2
    by_cases hin : 32 ≤ base_y + i0
    · -- the head row falls off the bottom edge and is skipped
      have hstep : draw_rows base_x base_y (i0 :: rest) s
          = draw_rows base_x base_y rest s := by
        simp only [draw_rows, hq]
        rw [if_pos hin]
      obtain ⟨ih1, ih2, ih3⟩ := ih s hq hndr
      rw [hstep]
      refine ⟨?_, ?_, ?_⟩
      · intro p hp
        exact ih1 p (fun i hi => hp i (List.mem_cons_of_mem i0 hi))
      · intro i hi hir
        rcases List.mem_cons.mp hi with hi0 | hirest
        · omega
        · exact ih2 i hirest hir
      · rw [ih3]
        congr 1
        simp only [eq_iff_iff]
        constructor
        · rintro ⟨i, hi, hir, hrest⟩
          exact ⟨i, List.mem_cons_of_mem i0 hi, hir, hrest⟩
        · rintro ⟨i, hi, hir, hrest⟩
          rcases List.mem_cons.mp hi with hi0 | hirest
          · omega
          · exact ⟨i, hirest, hir, hrest⟩
    · -- the head row is drawn
      have hyv : base_y + i0 < 32 := by omega
      have hstep : draw_rows base_x base_y (i0 :: rest) s
          = draw_rows base_x base_y rest
              (draw_row_cols base_x (base_y + i0) (s.ram (s.register_i + i0))
                (List.range 8) s) := by
        simp only [draw_rows, hq]
        rw [if_neg hin]
      obtain ⟨r1, r2, r3⟩ := draw_row_cols_clip base_x (base_y + i0)
        (s.ram (s.register_i + i0)) (List.range 8) s hq (List.nodup_range 8)
      obtain ⟨-, hram, hregI, -, -, -, -, -, -, -, -, -, -, hqq⟩ :=
        draw_row_cols_agrees base_x (base_y + i0) (s.ram (s.register_i + i0))
          (List.range 8) s
      obtain ⟨ih1, ih2, ih3⟩ := ih
        (draw_row_cols base_x (base_y + i0) (s.ram (s.register_i + i0))
          (List.range 8) s) (by rw [hqq]; exact hq) hndr
      rw [hstep]
      have hband : ∀ i ∈ rest, base_y + i < 32 → ∀ j, j < 8 → base_x + j < 64 →
          ∀ j1 ∈ List.range 8, base_x + j1 < 64 →
          (base_y + i) * 64 + (base_x + j) ≠ (base_y + i0) * 64 + (base_x + j1) := by
        intro i hi hir j hj8 hjr j1 hj1 hj1r
        have : i ≠ i0 := fun hc => hnd0 (hc ▸ hi)
        omega
      have hbufr : ∀ i ∈ rest, base_y + i < 32 → ∀ j, j < 8 → base_x + j < 64 →
          (draw_row_cols base_x (base_y + i0) (s.ram (s.register_i + i0))
              (List.range 8) s).drawing_buffer ((base_y + i) * 64 + (base_x + j))
            = s.drawing_buffer ((base_y + i) * 64 + (base_x + j)) := by
        intro i hi hir j hj8 hjr
        exact r1 _ (fun j1 hj1 hj1r => hband i hi hir j hj8 hjr j1 hj1 hj1r)
      refine ⟨?_, ?_, ?_⟩
      · intro p hp
        rw [ih1 p (fun i hi => hp i (List.mem_cons_of_mem i0 hi))]
        refine r1 p (fun j1 hj1 hj1r => ?_)
        exact hp i0 (List.mem_cons_self i0 rest) hyv j1 (List.mem_range.mp hj1) hj1r
      · intro i hi hir j hj8 hjr
        rcases List.mem_cons.mp hi with hi0 | hirest
        · subst hi0
          rw [ih1 ((base_y + i) * 64 + (base_x + j)) ?_]
          · exact r2 j (List.mem_range.mpr hj8) hjr
          · intro i1 hi1 hi1r j1 hj18 hj1r
            exact (hband i1 hi1 hi1r j1 hj18 hj1r j (List.mem_range.mpr hj8) hjr).symm
        · rw [ih2 i hirest hir j hj8 hjr, hram, hregI, hbufr i hirest hir j hj8 hjr]
      · rw [ih3, r3]
        have hcond : (∃ i ∈ rest, base_y + i < 32 ∧ ∃ j ∈ List.range 8, base_x + j < 64
              ∧ bit_of ((draw_row_cols base_x (base_y + i0)
                    (s.ram (s.register_i + i0)) (List.range 8) s).ram
                  ((draw_row_cols base_x (base_y + i0) (s.ram (s.register_i + i0))
                    (List.range 8) s).register_i + i)) j = 1
              ∧ (draw_row_cols base_x (base_y + i0) (s.ram (s.register_i + i0))
                  (List.range 8) s).drawing_buffer
                    ((base_y + i) * 64 + (base_x + j)) = true)
            ↔ (∃ i ∈ rest, base_y + i < 32 ∧ ∃ j ∈ List.range 8, base_x + j < 64
              ∧ bit_of (s.ram (s.register_i + i)) j = 1
              ∧ s.drawing_buffer ((base_y + i) * 64 + (base_x + j)) = true) := by
          rw [hram, hregI]
          constructor
          · rintro ⟨i, hi, hir, j, hj8, hjr, hbit, hb⟩
            exact ⟨i, hi, hir, j, hj8, hjr, hbit,
              (hbufr i hi hir j (List.mem_range.mp hj8) hjr) ▸ hb⟩
          · rintro ⟨i, hi, hir, j, hj8, hjr, hbit, hb⟩
            exact ⟨i, hi, hir, j, hj8, hjr, hbit,
              (hbufr i hi hir j (List.mem_range.mp hj8) hjr).symm ▸ hb⟩
        by_cases hhit : ∃ j ∈ List.range 8, base_x + j < 64
            ∧ bit_of (s.ram (s.register_i + i0)) j = 1
            ∧ s.drawing_buffer ((base_y + i0) * 64 + (base_x + j)) = true
        · rw [if_pos hhit]
          have hl : ∃ i ∈ i0 :: rest, base_y + i < 32
              ∧ ∃ j ∈ List.range 8, base_x + j < 64
              ∧ bit_of (s.ram (s.register_i + i)) j = 1
              ∧ s.drawing_buffer ((base_y + i) * 64 + (base_x + j)) = true :=
            ⟨i0, List.mem_cons_self i0 rest, hyv, hhit⟩
          rw [if_pos hl]
          split
          · rw [Function.update_idem]
          · rfl
        · rw [if_neg hhit]
          have hiff : (∃ i ∈ rest, base_y + i < 32
                ∧ ∃ j ∈ List.range 8, base_x + j < 64
                ∧ bit_of ((draw_row_cols base_x (base_y + i0)
                      (s.ram (s.register_i + i0)) (List.range 8) s).ram
                    ((draw_row_cols base_x (base_y + i0) (s.ram (s.register_i + i0))
                      (List.range 8) s).register_i + i)) j = 1
                ∧ (draw_row_cols base_x (base_y + i0) (s.ram (s.register_i + i0))
                    (List.range 8) s).drawing_buffer
                      ((base_y + i) * 64 + (base_x + j)) = true)
              ↔ (∃ i ∈ i0 :: rest, base_y + i < 32
                ∧ ∃ j ∈ List.range 8, base_x + j < 64
                ∧ bit_of (s.ram (s.register_i + i)) j = 1
                ∧ s.drawing_buffer ((base_y + i) * 64 + (base_x + j)) = true) := by
            rw [hcond]
            constructor
            · rintro ⟨i, hi, hir, hrest⟩
              exact ⟨i, List.mem_cons_of_mem i0 hi, hir, hrest⟩
            · rintro ⟨i, hi, hir, j, hj8, hjr, hbit, hb⟩
              rcases List.mem_cons.mp hi with hi0 | hirest
              · subst hi0
                exact absurd ⟨j, hj8, hjr, hbit, hb⟩ hhit
              · exact ⟨i, hirest, hir, j, hj8, hjr, hbit, hb⟩
          split
          · rename_i hrest
            rw [if_pos (hiff.mp hrest)]
          · rename_i hrest
            rw [if_neg (fun hc => hrest (hiff.mpr hc))]

/-- Characterization of the outer row loop under the wrap quirk, for a
duplicate-free list of row offsets below 32: every sprite bit XORs the pixel
at its coordinates reduced modulo the screen size, untargeted pixels are
untouched, and register F is raised exactly when some bit collides. -/
theorem draw_rows_wrap (base_x base_y : Nat) (l : List Nat) : ∀ s : Interp,
    s.quirk_config.clipping = ClippingQuirk.Wrap → l.Nodup →
    (∀ i ∈ l, i < 32) →
    ((∀ p, (∀ i ∈ l, ∀ j, j < 8 →
        p ≠ ((base_y + i) % 32) * 64 + (base_x + j) % 64) →
        (draw_rows base_x base_y l s).drawing_buffer p = s.drawing_buffer p)
  ∧ (∀ i ∈ l, ∀ j, j < 8 →
      (draw_rows base_x base_y l s).drawing_buffer
          (((base_y + i) % 32) * 64 + (base_x + j) % 64)
        = Bool.xor (s.drawing_buffer (((base_y + i) % 32) * 64 + (base_x + j) % 64))
            (bit_of (s.ram (s.register_i + i)) j == 1))
  ∧ ((draw_rows base_x base_y l s).registers
      = if ∃ i ∈ l, ∃ j ∈ List.range 8,
            bit_of (s.ram (s.register_i + i)) j = 1
            ∧ s.drawing_buffer
                (((base_y + i) % 32) * 64 + (base_x + j) % 64) = true
        then Function.update s.registers 0xF 1 else s.registers)) := by
  induction l with
  | nil =>
    intro s _ _ _
    refine ⟨fun p _ => rfl, fun i hi => absurd hi (List.not_mem_nil i), ?_⟩
    rw [if_neg (by simp)]
    rfl
  | cons i0 rest ih =>
    intro s hq hnd hlt
    have hnd0 : i0 ∉ rest := (List.nodup_cons.mp hnd).1
    have hndr : rest.Nodup := (List.nodup_cons.mp hnd).2
    have hlt0 : i0 < 32 := hlt i0 (List.mem_cons_self i0 rest)
    have hltr : ∀ i ∈ rest, i < 32 := fun i hi => hlt i (List.mem_cons_of_mem i0 hi)
    have hstep : draw_rows base_x base_y (i0 :: rest) s
        = draw_rows base_x base_y rest
            (draw_row_cols base_x ((base_y + i0) % 32) (s.ram (s.register_i + i0))
              (List.range 8) s) := by
      simp only [draw_rows, hq]
    obtain ⟨r1, r2, r3⟩ := draw_row_cols_wrap base_x ((base_y + i0) % 32)
      (s.ram (s.register_i + i0)) (List.range 8) s hq (List.nodup_range 8)
      (fun j hj => by have := List.mem_range.mp hj; omega)
    obtain ⟨-, hram, hregI, -, -, -, -, -, -, -, -, -, -, hqq⟩ :=
      draw_row_cols_agrees base_x ((base_y + i0) % 32) (s.ram (s.register_i + i0))
        (List.range 8) s
    obtain ⟨ih1, ih2, ih3⟩ := ih
      (draw_row_cols base_x ((base_y + i0) % 32) (s.ram (s.register_i + i0))
        (List.range 8) s) (by rw [hqq]; exact hq) hndr hltr
    rw [hstep]
    have hband : ∀ i ∈ rest, ∀ j, j < 8 → ∀ j1 ∈ List.range 8,
        ((base_y + i) % 32) * 64 + (base_x + j) % 64
          ≠ ((base_y + i0) % 32) * 64 + (base_x + j1) % 64 := by
      intro i hi j hj8 j1 hj1
      have hi32 : i < 32 := hltr i hi
      have hine : i ≠ i0 := fun hc => hnd0 (hc ▸ hi)
      have hrow : (base_y + i) % 32 ≠ (base_y + i0) % 32 := by omega
      have hx : (base_x + j) % 64 < 64 := Nat.mod_lt _ (by norm_num)
      have hx1 : (base_x + j1) % 64 < 64 := Nat.mod_lt _ (by norm_num)
      omega
    have hbufr : ∀ i ∈ rest, ∀ j, j < 8 →
        (draw_row_cols base_x ((base_y + i0) % 32) (s.ram (s.register_i + i0))
            (List.range 8) s).drawing_buffer
              (((base_y + i) % 32) * 64 + (base_x + j) % 64)
          = s.drawing_buffer (((base_y + i) % 32) * 64 + (base_x + j) % 64) := by
      intro i hi j hj8
      exact r1 _ (fun j1 hj1 => hband i hi j hj8 j1 hj1)
    refine ⟨?_, ?_, ?_⟩
    · intro p hp
      rw [ih1 p (fun i hi => hp i (List.mem_cons_of_mem i0 hi))]
      refine r1 p (fun j1 hj1 => ?_)
      exact hp i0 (List.mem_cons_self i0 rest) j1 (List.mem_range.mp hj1)
    · intro i hi j hj8
      rcases List.mem_cons.mp hi with hi0 | hirest
      · subst hi0
        rw [ih1 (((base_y + i) % 32) * 64 + (base_x + j) % 64) ?_]
        · exact r2 j (List.mem_range.mpr hj8)
        · intro i1 hi1 j1 hj18
          exact (hband i1 hi1 j1 hj18 j (List.mem_range.mpr hj8)).symm
      · rw [ih2 i hirest j hj8, hram, hregI, hbufr i hirest j hj8]
    · rw [ih3, r3]
      have hcond : (∃ i ∈ rest, ∃ j ∈ List.range 8,
            bit_of ((draw_row_cols base_x ((base_y + i0) % 32)
                  (s.ram (s.register_i + i0)) (List.range 8) s).ram
                ((draw_row_cols base_x ((base_y + i0) % 32) (s.ram (s.register_i + i0))
                  (List.range 8) s).register_i + i)) j = 1
            ∧ (draw_row_cols base_x ((base_y + i0) % 32) (s.ram (s.register_i + i0))
                (List.range 8) s).drawing_buffer
                  (((base_y + i) % 32) * 64 + (base_x + j) % 64) = true)
          ↔ (∃ i ∈ rest, ∃ j ∈ List.range 8,
            bit_of (s.ram (s.register_i + i)) j = 1
            ∧ s.drawing_buffer
                (((base_y + i) % 32) * 64 + (base_x + j) % 64) = true) := by
        rw [hram, hregI]
        constructor
        · rintro ⟨i, hi, j, hj8, hbit, hb⟩
          exact ⟨i, hi, j, hj8, hbit, (hbufr i hi j (List.mem_range.mp hj8)) ▸ hb⟩
        · rintro ⟨i, hi, j, hj8, hbit, hb⟩
          exact ⟨i, hi, j, hj8, hbit, (hbufr i hi j (List.mem_range.mp hj8)).symm ▸ hb⟩
      by_cases hhit : ∃ j ∈ List.range 8,
          bit_of (s.ram (s.register_i + i0)) j = 1
          ∧ s.drawing_buffer (((base_y + i0) % 32) * 64 + (base_x + j) % 64) = true
      · rw [if_pos hhit]
        have hl : ∃ i ∈ i0 :: rest, ∃ j ∈ List.range 8,
            bit_of (s.ram (s.register_i + i)) j = 1
            ∧ s.drawing_buffer
                (((base_y + i) % 32) * 64 + (base_x + j) % 64) = true :=
          ⟨i0, List.mem_cons_self i0 rest, hhit⟩
        rw [if_pos hl]
        split
        · rw [Function.update_idem]
        · rfl
      · rw [if_neg hhit]
        have hiff : (∃ i ∈ rest, ∃ j ∈ List.range 8,
              bit_of ((draw_row_cols base_x ((base_y + i0) % 32)
                    (s.ram (s.register_i + i0)) (List.range 8) s).ram
                  ((draw_row_cols base_x ((base_y + i0) % 32)
                    (s.ram (s.register_i + i0)) (List.range 8) s).register_i + i)) j = 1
              ∧ (draw_row_cols base_x ((base_y + i0) % 32) (s.ram (s.register_i + i0))
                  (List.range 8) s).drawing_buffer
                    (((base_y + i) % 32) * 64 + (base_x + j) % 64) = true)
            ↔ (∃ i ∈ i0 :: rest, ∃ j ∈ List.range 8,
              bit_of (s.ram (s.register_i + i)) j = 1
              ∧ s.drawing_buffer
                  (((base_y + i) % 32) * 64 + (base_x + j) % 64) = true) := by
          rw [hcond]
          constructor
          · rintro ⟨i, hi, hrest⟩
            exact ⟨i, List.mem_cons_of_mem i0 hi, hrest⟩
          · rintro ⟨i, hi, j, hj8, hbit, hb⟩
            rcases List.mem_cons.mp hi with hi0 | hirest
            · subst hi0
              exact absurd ⟨j, hj8, hbit, hb⟩ hhit
            · exact ⟨i, hirest, j, hj8, hbit, hb⟩
        split
        · rename_i hrest
          rw [if_pos (hiff.mp hrest)]
        · rename_i hrest
          rw [if_neg (fun hc => hrest (hiff.mpr hc))]

/-- C6: drawing a sprite of height up to 16 at base coordinates taken modulo
64 and 32: with the clipping quirk set to wrap, every sprite bit — also the
ones past the screen edge — XORs the pixel at its coordinates reduced modulo
the screen dimensions; with the quirk set to clip, the bits whose
coordinates fall outside the screen are skipped entirely: only pixels
targeted by in-range bits can change, and the collision flag is raised
exactly when an in-range bit hits a lit pixel, with no contribution from the
clipped bits. -/
theorem complete_draw_clipping_spec (s : Interp) (x y len : Nat)
    (hx : x < 16) (hy : y < 16) (hlen : len ≤ 16) :
    (s.quirk_config.clipping = ClippingQuirk.Wrap →
      ∀ i, i < len → ∀ j, j < 8 →
        (complete_draw s x y len).drawing_buffer
            (((s.registers y % 32 + i) % 32) * 64 + (s.registers x % 64 + j) % 64)
          = Bool.xor
              (s.drawing_buffer
                (((s.registers y % 32 + i) % 32) * 64
                  + (s.registers x % 64 + j) % 64))
              (bit_of (s.ram (s.register_i + i)) j == 1))
  ∧ (s.quirk_config.clipping = ClippingQuirk.Clip →
      (∀ p, (∀ i, i < len → s.registers y % 32 + i < 32 → ∀ j, j < 8 →
          s.registers x % 64 + j < 64 →
          p ≠ (s.registers y % 32 + i) * 64 + (s.registers x % 64 + j)) →
        (complete_draw s x y len).drawing_buffer p = s.drawing_buffer p)
      ∧ ((complete_draw s x y len).registers 0xF = 1 ↔
          ∃ i, i < len ∧ s.registers y % 32 + i < 32 ∧ ∃ j, j < 8
            ∧ s.registers x % 64 + j < 64
            ∧ bit_of (s.ram (s.register_i + i)) j = 1
            ∧ s.drawing_buffer ((s.registers y % 32 + i) * 64
                + (s.registers x % 64 + j)) = true)) := by
  have hcd : complete_draw s x y len
      = draw_rows (s.registers x % 64) (s.registers y % 32) (List.range len)
          { s with registers := Function.update s.registers 0xF 0 } := rfl
  constructor
  · intro hw i hilen j hj8
    obtain ⟨-, w2, -⟩ := draw_rows_wrap (s.registers x % 64) (s.registers y % 32)
      (List.range len) { s with registers := Function.update s.registers 0xF 0 }
      hw (List.nodup_range len)
      (fun i hi => by have := List.mem_range.mp hi; omega)
    have h := w2 i (List.mem_range.mpr hilen) j hj8
    rw [hcd]
    exact h
  · intro hc
    obtain ⟨d1, -, d3⟩ := draw_rows_clip (s.registers x % 64) (s.registers y % 32)
      (List.range len) { s with registers := Function.update s.registers 0xF 0 }
      hc (List.nodup_range len)
    constructor
    · intro p hp
      rw [hcd]
      exact d1 p (fun i hi => hp i (List.mem_range.mp hi))
    · rw [hcd, d3]
      dsimp only
      split
      · rename_i hhit
        rw [Function.update_same]
        simp only [true_iff]
        obtain ⟨i, hi, hir, j, hj8, hjr, hbit, hb⟩ := hhit
        exact ⟨i, List.mem_range.mp hi, hir, j, List.mem_range.mp hj8, hjr, hbit, hb⟩
      · rename_i hhit
        rw [Function.update_same]
        simp only [(by norm_num : (0 : Nat) ≠ 1), false_iff]
        rintro ⟨i, hilen, hir, j, hj8, hjr, hbit, hb⟩
        exact hhit ⟨i, List.mem_range.mpr hilen, hir, j, List.mem_range.mpr hj8,
          hjr, hbit, hb⟩

/-- C6 witness: the theorem applied to a draw of the 5-byte digit-0 glyph at
x = 63 (from V1), y = 0 (from V2) on a machine whose clipping quirk is
clip. -/
theorem complete_draw_clipping_spec_witness :
    ((1 : Nat) < 16 ∧ (2 : Nat) < 16 ∧ (5 : Nat) ≤ 16)
  ∧ ((draw_example_state.quirk_config.clipping = ClippingQuirk.Wrap →
      ∀ i, i < 5 → ∀ j, j < 8 →
        (complete_draw draw_example_state 1 2 5).drawing_buffer
            (((draw_example_state.registers 2 % 32 + i) % 32) * 64
              + (draw_example_state.registers 1 % 64 + j) % 64)
          = Bool.xor
              (draw_example_state.drawing_buffer
                (((draw_example_state.registers 2 % 32 + i) % 32) * 64
                  + (draw_example_state.registers 1 % 64 + j) % 64))
              (bit_of (draw_example_state.ram (draw_example_state.register_i + i)) j
                == 1))
    ∧ (draw_example_state.quirk_config.clipping = ClippingQuirk.Clip →
      (∀ p, (∀ i, i < 5 → draw_example_state.registers 2 % 32 + i < 32 →
          ∀ j, j < 8 → draw_example_state.registers 1 % 64 + j < 64 →
          p ≠ (draw_example_state.registers 2 % 32 + i) * 64
            + (draw_example_state.registers 1 % 64 + j)) →
        (complete_draw draw_example_state 1 2 5).drawing_buffer p
          = draw_example_state.drawing_buffer p)
      ∧ ((complete_draw draw_example_state 1 2 5).registers 0xF = 1 ↔
          ∃ i, i < 5 ∧ draw_example_state.registers 2 % 32 + i < 32 ∧ ∃ j, j < 8
            ∧ draw_example_state.registers 1 % 64 + j < 64
            ∧ bit_of (draw_example_state.ram (draw_example_state.register_i + i)) j
                = 1
            ∧ draw_example_state.drawing_buffer
                ((draw_example_state.registers 2 % 32 + i) * 64
                  + (draw_example_state.registers 1 % 64 + j)) = true))) :=
  ⟨⟨by decide, by decide, by decide⟩,
    complete_draw_clipping_spec draw_example_state 1 2 5
      (by decide) (by decide) (by decide)⟩

end RustyChip
